import Mathlib

/-!
# Mixer: parallel priority-ordered Bigtable reader and best-source selection

A shallow embedding of `internal/server/bigtable.go` and
`internal/server/stat_util.go`.

* Go maps are association lists with distinct keys (`GoMap`); the list order
  stands for one iteration order of the map.
* `*bigtable.Table` pointers are natural numbers (pointer identity).
* `interface{}` values are `Option ι`, where `none` is the nil interface.
* `float64` payloads are only copied, never computed on; they are integers here.
-/

namespace Mixer

/-! ## Go maps -/

/-- A Go map, given by its entries. -/
abbrev GoMap (κ ν : Type) := List (κ × ν)

namespace GoMap

variable {κ ν : Type} [DecidableEq κ]

/-- The lookup `v, ok := m[k]`. -/
def get : GoMap κ ν → κ → Option ν
  | [], _ => none
  | (k', v) :: rest, k => if k' = k then some v else get rest k

/-- The assignment `m[k] = v`. -/
def set : GoMap κ ν → κ → ν → GoMap κ ν
  | [], k, v => [(k, v)]
  | (k', v') :: rest, k, v =>
    if k' = k then (k, v) :: rest else (k', v') :: set rest k v

/-- The keys of the map, in iteration order. -/
def keys (m : GoMap κ ν) : List κ := m.map Prod.fst

end GoMap

/-! ## gRPC status -/

/-- The gRPC status codes used by the server. -/
inductive Code where
  | NotFound
  | Internal
  | InvalidArgument
  | Unknown
  deriving DecidableEq, Repr

/-- A gRPC status error, `status.Errorf(code, msg)`. -/
structure Status where
  code : Code
  msg : String
  deriving DecidableEq, Repr

/-! ## Priority merge (bigtable.go, lines 153-172) -/

/-- A `*bigtable.Table` pointer. -/
abbrev Table := Nat

/-- The element sent on `elemChan`: `chanData{token, elem, btTable}`. -/
structure chanData (ι : Type) where
  token : String
  data : Option ι
  table : Table
  deriving DecidableEq

variable {ι : Type}

/-- One iteration of `for elem := range elemChan` (lines 155-160). -/
def collectStep (tmp : GoMap String (GoMap Table (Option ι))) (elem : chanData ι) :
    GoMap String (GoMap Table (Option ι)) :=
  let tmp1 := if (tmp.get elem.token).isNone then tmp.set elem.token [] else tmp
  tmp1.set elem.token (((tmp1.get elem.token).getD []).set elem.table elem.data)

/-- The map `tmp`, keyed by token and then by table (lines 154-160). -/
def collect (elems : List (chanData ι)) : GoMap String (GoMap Table (Option ι)) :=
  elems.foldl collectStep []

/-- The inner loop `for _, t := range btTables` with its `break` (lines 165-170). -/
def pick : List Table → GoMap Table (Option ι) → Option (Option ι)
  | [], _ => none
  | t :: rest, tableData =>
    match tableData.get t with
    | some data => some data
    | none => pick rest tableData

/-- One iteration of `for token, tableData := range tmp` (lines 162-171). -/
def reduceStep (btTables : List Table) (result : GoMap String (Option ι))
    (entry : String × GoMap Table (Option ι)) : GoMap String (Option ι) :=
  match pick btTables entry.2 with
  | some data => result.set entry.1 data
  | none => result

/-- The result map built from `tmp` (lines 161-171). -/
def reduce (btTables : List Table) (tmp : GoMap String (GoMap Table (Option ι))) :
    GoMap String (Option ι) :=
  tmp.foldl (reduceStep btTables) []

/-- The reduction pass over the drained channel (lines 153-172). -/
def merge (btTables : List Table) (elems : List (chanData ι)) : GoMap String (Option ι) :=
  reduce btTables (collect elems)

/-- The value a store sent last for a token, if it sent one. -/
def lastEmitted (elems : List (chanData ι)) (token : String) (t : Table) :
    Option (Option ι) :=
  (elems.reverse.find? (fun e => decide (e.token = token ∧ e.table = t))).map (·.data)

/-- The double lookup `tmp[token][t]`. -/
def look (tmp : GoMap String (GoMap Table (Option ι))) (token : String) (t : Table) :
    Option (Option ι) :=
  (tmp.get token).bind (fun tableData => tableData.get t)

/-! ## Scans (bigtable.go, lines 27-70) -/

/-- A `bigtable.Row` as the callback reads it: `btRow.Key()` and the values of
the cells of `btRow[util.BtFamily]`. -/
structure Row where
  key : String
  family : List String
  deriving DecidableEq, Repr

/-- A `bigtable.RowSet`: the two representations the type switch accepts, and
any other implementation of the interface. -/
inductive RowSet where
  | RowList (keys : List String)
  | RowRangeList (ranges : List (String × String))
  | other (desc : String)
  deriving DecidableEq, Repr

/-- Go's comparison `a > b` of strings: lexicographic on the contents. -/
def gtString (a b : String) : Bool := decide (b.toList < a.toList)

/-- Whether a row key is selected by a row set; a range is `[start, limit)`. -/
def RowSet.selects : RowSet → String → Bool
  | .RowList keys, k => decide (k ∈ keys)
  | .RowRangeList ranges, k => ranges.any (fun r => !gtString r.1 k && gtString r.2 k)
  | .other _, _ => false

/-- What the function takes from outside `internal/server`: the constants and
helpers of package `util`, and the Bigtable service behind the table handles
(the rows each table holds, in key order, and the error a scan ends with). -/
structure World where
  BtBatchQuerySize : Nat
  KeyToDcid : String → Except Status String
  UnzipAndDecode : String → Except Status String
  content : Table → List Row
  scanErr : Table → RowSet → Option Status

/-- The client library call `btTable.ReadRows(ctx, rowSet, f)`: `f` is called
for each row in order; when `f` returns false the stream is shut down and
`ReadRows` returns nil; otherwise it returns how the scan ended. The state `σ`
is what `f` writes to. -/
def ReadRows {σ : Type} (rows : List Row) (scanErr : Option Status)
    (f : Row → σ → Bool × σ) (s : σ) : Option Status × σ :=
  match rows with
  | [] => (scanErr, s)
  | r :: rest =>
    match f r s with
    | (true, s1) => ReadRows rest scanErr f s1
    | (false, s1) => (none, s1)

/-- The callback given to `ReadRows` (lines 41-65); the channel is the list of
elements sent so far. -/
def rowCallback (w : World) (btTable : Table)
    (getToken : Option (String → Except Status String))
    (action : String → String → Except Status (Option ι))
    (btRow : Row) (elemChan : List (chanData ι)) : Bool × List (chanData ι) :=
  match btRow.family with
  | [] => (true, elemChan)
  | raw :: _ =>
    match (getToken.getD w.KeyToDcid) btRow.key with
    | .error _ => (false, elemChan)
    | .ok token =>
      match w.UnzipAndDecode raw with
      | .error _ => (false, elemChan)
      | .ok jsonRaw =>
        match action token jsonRaw with
        | .error _ => (false, elemChan)
        | .ok elem => (true, elemChan ++ [⟨token, elem, btTable⟩])

/-- A row with a payload for which token derivation, decoding or the transform
returns an error (lines 50-62). -/
def rowFails (w : World) (getToken : Option (String → Except Status String))
    (action : String → String → Except Status (Option ι)) (btRow : Row) : Prop :=
  match btRow.family with
  | [] => False
  | raw :: _ =>
    match (getToken.getD w.KeyToDcid) btRow.key with
    | .error _ => True
    | .ok token =>
      match w.UnzipAndDecode raw with
      | .error _ => True
      | .ok jsonRaw =>
        match action token jsonRaw with
        | .error _ => True
        | .ok _ => False

/-- The element that the callback sends for a row (line 63), when it sends
one: the row has a payload and token derivation, decoding and the transform
succeed. -/
def emitted (w : World) (getToken : Option (String → Except Status String))
    (action : String → String → Except Status (Option ι)) (btTable : Table)
    (btRow : Row) : Option (chanData ι) :=
  match btRow.family with
  | [] => none
  | raw :: _ =>
    match (getToken.getD w.KeyToDcid) btRow.key with
    | .error _ => none
    | .ok token =>
      match w.UnzipAndDecode raw with
      | .error _ => none
      | .ok jsonRaw =>
        match action token jsonRaw with
        | .error _ => none
        | .ok elem => some ⟨token, elem, btTable⟩

/-- The task returned by `readRowFn` (lines 39-69): it maps the channel before
to the task's error and the channel after. -/
def readRowFn (w : World) (btTable : Table) (rowSetPart : RowSet)
    (getToken : Option (String → Except Status String))
    (action : String → String → Except Status (Option ι))
    (elemChan : List (chanData ι)) : Option Status × List (chanData ι) :=
  match ReadRows ((w.content btTable).filter (fun r => rowSetPart.selects r.key))
      (w.scanErr btTable rowSetPart) (rowCallback w btTable getToken action) elemChan with
  | (some err, ch) => (some err, ch)
  | (none, ch) => (none, ch)

/-! ## The parallel reader (bigtable.go, lines 80-173) -/

/-- The Go slice expression `l[left:right]`. -/
def slice {α : Type} (l : List α) (left right : Nat) : List α :=
  (l.drop left).take (right - left)

/-- The `rowSetPart` of iteration `i` of the chunking loop (lines 129-139). -/
def rowSetPart (B rowSetSize : Nat) (rowList : List String)
    (rowRangeList : List (String × String)) (i : Nat) : RowSet :=
  let left := i * B
  let right := if (i + 1) * B > rowSetSize then rowSetSize else (i + 1) * B
  if rowList.length > 0 then .RowList (slice rowList left right)
  else .RowRangeList (slice rowRangeList left right)

/-- The sub-RowSets of the loop `for i := 0; i <= rowSetSize/B; i++`, in loop
order (lines 128-139). -/
def rowSetParts (B rowSetSize : Nat) (rowList : List String)
    (rowRangeList : List (String × String)) : List RowSet :=
  (List.range (rowSetSize / B + 1)).map (rowSetPart B rowSetSize rowList rowRangeList)

/-- The partition contract: `parts` are the windows `[i*B, min((i+1)*B, S))` of
`l` (with `S` the length of `l`), each of length at most `B`, earlier windows
end before later ones begin, and the parts concatenated in order are `l`. -/
def IsChunking {α : Type} (B : Nat) (l : List α) (parts : List (List α)) : Prop :=
  (∀ (i : Nat) (hi : i < parts.length),
    parts[i] = slice l (i * B) (min ((i + 1) * B) l.length) ∧ parts[i].length ≤ B) ∧
  (∀ i j : Nat, i < j → j < parts.length → min ((i + 1) * B) l.length ≤ j * B) ∧
  parts.flatten = l

/-- The tasks handed to `errs.Go`, in scheduling order (lines 128-145). -/
def scheduledTasks (B rowSetSize : Nat) (btTables : List Table) (rowList : List String)
    (rowRangeList : List (String × String)) : List (Table × RowSet) :=
  (rowSetParts B rowSetSize rowList rowRangeList).flatMap
    (fun part => btTables.map (fun btTable => (btTable, part)))

/-- The tasks run one after the other in scheduling order; the state is the
first error seen by the group and the elements sent to `elemChan`. -/
def runTasks (w : World) (getToken : Option (String → Except Status String))
    (action : String → String → Except Status (Option ι))
    (tasks : List (Table × RowSet)) : Option Status × List (chanData ι) :=
  tasks.foldl
    (fun st task =>
      match readRowFn w task.1 task.2 getToken action st.2 with
      | (err, ch) => (st.1.orElse (fun _ => err), ch))
    (none, [])

/-- How a call ends. -/
inductive Outcome (ι : Type) where
  | returned (result : Option (GoMap String (Option ι))) (err : Option Status)
  | blocked
  | panicked
  deriving DecidableEq

/-- A call: the tasks it scheduled and how it ended. `blocked`: a task waits
forever to send on the full `elemChan`, so `errs.Wait()` does not return.
`panicked`: integer division by zero. -/
structure Run (ι : Type) where
  scheduled : List (Table × RowSet)
  outcome : Outcome ι
  deriving DecidableEq

/-- The loop of lines 116-122. -/
def fillNil (getToken : String → Except Status String) :
    List String → GoMap String (Option ι) → Except Status (GoMap String (Option ι))
  | [], result => .ok result
  | key :: rest, result =>
    match getToken key with
    | .error err => .error err
    | .ok token => fillNil getToken rest (result.set token none)

/-- Lines 106-172, after the type switch has set `rowSetSize`, `rowList` and
`rowRangeList`. -/
def readBody (w : World) (btTable : Option Table) (btTables : List Table)
    (rowSetSize : Nat) (rowList : List String) (rowRangeList : List (String × String))
    (action : String → String → Except Status (Option ι))
    (getToken : Option (String → Except Status String)) : Run ι :=
  if rowSetSize = 0 then ⟨[], .returned none none⟩
  else
    let getToken1 := getToken.getD w.KeyToDcid
    if btTable.isNone then
      match fillNil getToken1 rowList [] with
      | .error err => ⟨[], .returned none (some err)⟩
      | .ok result => ⟨[], .returned (some result) none⟩
    else if w.BtBatchQuerySize = 0 then ⟨[], .panicked⟩
    else
      let tasks := scheduledTasks w.BtBatchQuerySize rowSetSize btTables rowList rowRangeList
      match runTasks w (some getToken1) action tasks with
      | (err, elems) =>
        if elems.length > rowSetSize then ⟨tasks, .blocked⟩
        else
          match err with
          | some e => ⟨tasks, .returned none (some e)⟩
          | none => ⟨tasks, .returned (some (merge btTables elems)) none⟩

/-- The function `bigTableReadRowsParallel`. The name `btTable` read at lines 87
and 115 is not declared in the function; it is a parameter here. The tasks run
in scheduling order, each to its end. -/
def bigTableReadRowsParallel (w : World) (btTable : Option Table) (btTables : List Table)
    (rowSet : RowSet) (action : String → String → Except Status (Option ι))
    (getToken : Option (String → Except Status String)) : Run ι :=
  if btTable.isNone then
    ⟨[], .returned none (some ⟨.NotFound, "Bigtable instance is not specified"⟩)⟩
  else
    match rowSet with
    | .RowList rowList => readBody w btTable btTables rowList.length rowList [] action getToken
    | .RowRangeList rowRangeList =>
      readBody w btTable btTables rowRangeList.length [] rowRangeList action getToken
    | .other desc =>
      ⟨[], .returned none (some ⟨.Internal, "Unsupported RowSet type: " ++ desc⟩)⟩

/-- The elements on `elemChan` when all tasks of a call have ended. -/
def drained (w : World) (btTables : List Table) (rowSet : RowSet)
    (action : String → String → Except Status (Option ι))
    (getToken : Option (String → Except Status String)) : List (chanData ι) :=
  match rowSet with
  | .RowList rowList =>
    (runTasks w (some (getToken.getD w.KeyToDcid)) action
      (scheduledTasks w.BtBatchQuerySize rowList.length btTables rowList [])).2
  | .RowRangeList rowRangeList =>
    (runTasks w (some (getToken.getD w.KeyToDcid)) action
      (scheduledTasks w.BtBatchQuerySize rowRangeList.length btTables [] rowRangeList)).2
  | .other _ => []

/-- A concrete setting for the examples: batch size 2, the row key as token,
payload `bad` does not decode, table 1 holds rows `a` and `b`, table 2 holds
rows `a` and `c`, scans end without error. -/
def demoWorld : World :=
  ⟨2, fun k => .ok k,
    fun raw => if raw = "bad" then .error ⟨.Internal, "decode"⟩ else .ok raw,
    fun t =>
      if t = 1 then [⟨"a", ["1"]⟩, ⟨"b", ["bad"]⟩]
      else if t = 2 then [⟨"a", ["333"]⟩, ⟨"c", ["4"]⟩] else [],
    fun _ _ => none⟩

/-- A transform for the examples: the length of the decoded payload. -/
def demoAction : String → String → Except Status (Option Nat) :=
  fun _ jsonRaw => .ok (some jsonRaw.length)

/-! ## Series filter and best-value selection (stat_util.go) -/

/-- A `float64` payload. -/
abbrev Float64 := Int

/-- The properties of a StatObservation used as a filter. -/
structure ObsProp where
  Mmethod : String
  Operiod : String
  Unit : String
  Sfactor : String
  deriving DecidableEq, Repr

/-- A source series, with the fields the server reads. -/
structure SourceSeries where
  ImportName : String
  ProvenanceURL : String
  MeasurementMethod : String
  ObservationPeriod : String
  ScalingFactor : String
  Unit : String
  Val : GoMap String Float64
  deriving DecidableEq, Repr

/-- The source series of one place and statistical variable. -/
structure ObsTimeSeries where
  PlaceDcid : String
  Data : GoMap String Float64
  ProvenanceURL : String
  SourceSeries : List Mixer.SourceSeries
  deriving DecidableEq, Repr

/-- The body of the loop of `filterSeries` (lines 44-56). -/
def filterStep (prop : ObsProp) (result : List SourceSeries) (series : SourceSeries) :
    List SourceSeries :=
  if prop.Mmethod ≠ "" ∧ prop.Mmethod ≠ series.MeasurementMethod then result
  else if prop.Operiod ≠ "" ∧ prop.Operiod ≠ series.ObservationPeriod then result
  else if prop.Unit ≠ "" ∧ prop.Unit ≠ series.Unit then result
  else if prop.Sfactor ≠ "" ∧ prop.Sfactor ≠ series.ScalingFactor then result
  else result ++ [series]

/-- The function `filterSeries` (lines 41-59). -/
def filterSeries (in_ : List SourceSeries) (prop : ObsProp) : List SourceSeries :=
  in_.foldl (filterStep prop) []

/-- The loop of lines 111-115, with its early return. -/
def dateLoop (date : String) : List SourceSeries → Option Float64
  | [] => none
  | series :: rest =>
    match series.Val.get date with
    | some value => some value
    | none => dateLoop date rest

/-- The body of the inner loop of lines 121-126; the state is
`(latestDate, result)`. -/
def latestStep (st : String × Float64) (entry : String × Float64) : String × Float64 :=
  if gtString entry.1 st.1 then (entry.1, entry.2) else st

/-- The loops of lines 118-127. -/
def latestLoop (sourceSeries : List SourceSeries) : String × Float64 :=
  sourceSeries.foldl (fun st series => series.Val.foldl latestStep st) ("", 0)

/-- The function `getValueFromBestSource` (lines 104-133). The comparator type
`byRank` is declared outside these sources: `sortByRank` stands for
`sort.Sort(byRank(·))`. -/
def getValueFromBestSource (sortByRank : List SourceSeries → List SourceSeries)
    (in_ : Option ObsTimeSeries) (date : String) : Except Status Float64 :=
  match in_ with
  | none => .error ⟨.Internal, "Nil obs time series for getValueFromBestSource()"⟩
  | some in_ =>
    let sourceSeries := sortByRank in_.SourceSeries
    if date ≠ "" then
      match dateLoop date sourceSeries with
      | some value => .ok value
      | none => .error ⟨.NotFound, "No data found for date " ++ date⟩
    else
      match latestLoop sourceSeries with
      | (latestDate, result) =>
        if latestDate = "" then .error ⟨.NotFound, "No stat data found for " ++ in_.PlaceDcid⟩
        else .ok result

namespace pb

/-- The message `pb.SourceSeries`. -/
structure SourceSeries where
  ImportName : String
  ProvenanceUrl : String
  MeasurementMethod : String
  ObservationPeriod : String
  ScalingFactor : String
  Unit : String
  Val : GoMap String Float64
  deriving DecidableEq, Repr

/-- The message `pb.ObsTimeSeries`. -/
structure ObsTimeSeries where
  SourceSeries : List pb.SourceSeries
  deriving DecidableEq, Repr

/-- The message `pb.StatMetadata`. -/
structure StatMetadata where
  ImportName : String
  ProvenanceUrl : String
  MeasurementMethod : String
  ObservationPeriod : String
  ScalingFactor : String
  Unit : String
  deriving DecidableEq, Repr

/-- The message `pb.PointStat`. -/
structure PointStat where
  Date : String
  Value : Float64
  Metadata : Option StatMetadata
  deriving DecidableEq, Repr

end pb

/-- The `pb.PointStat` literal of lines 154-166 and 187-193. -/
def pointStatOf (series : pb.SourceSeries) (date : String) (value : Float64) : pb.PointStat :=
  ⟨date, value, some ⟨series.ImportName, "", "", "", "", ""⟩⟩

/-- The `pb.StatMetadata` literal of lines 167-174 and 194-201. -/
def metadataOf (series : pb.SourceSeries) : pb.StatMetadata :=
  ⟨series.ImportName, series.ProvenanceUrl, series.MeasurementMethod,
    series.ObservationPeriod, series.ScalingFactor, series.Unit⟩

/-- The loop of lines 152-176, with its early return. -/
def dateLoopPb (date : String) :
    List pb.SourceSeries → Option pb.PointStat × Option pb.StatMetadata
  | [] => (none, none)
  | series :: rest =>
    match series.Val.get date with
    | some value => (some (pointStatOf series date value), some (metadataOf series))
    | none => dateLoopPb date rest

/-- The body of the inner loop of lines 185-202; the state is
`(latestDate, ps, meta)`. -/
def latestStepPb (series : pb.SourceSeries)
    (st : String × Option pb.PointStat × Option pb.StatMetadata)
    (entry : String × Float64) : String × Option pb.PointStat × Option pb.StatMetadata :=
  if gtString entry.1 st.1 then
    (entry.1, some (pointStatOf series entry.1 entry.2), some (metadataOf series))
  else st

/-- The loops of lines 180-204. -/
def latestLoopPb (sourceSeries : List pb.SourceSeries) :
    String × Option pb.PointStat × Option pb.StatMetadata :=
  sourceSeries.foldl (fun st series => series.Val.foldl (latestStepPb series) st)
    ("", none, none)

/-- The function `getValueFromBestSourcePb` (lines 142-209). The comparator type
`SeriesByRank` is declared outside these sources: `sortSeriesByRank` stands for
`sort.Sort(SeriesByRank(·))`. -/
def getValueFromBestSourcePb (sortSeriesByRank : List pb.SourceSeries → List pb.SourceSeries)
    (in_ : Option pb.ObsTimeSeries) (date : String) :
    Option pb.PointStat × Option pb.StatMetadata :=
  match in_ with
  | none => (none, none)
  | some in_ =>
    let sourceSeries := sortSeriesByRank in_.SourceSeries
    if date ≠ "" then dateLoopPb date sourceSeries
    else
      match latestLoopPb sourceSeries with
      | (latestDate, ps, meta) => if latestDate = "" then (none, none) else (ps, meta)

/-- The filter contract in the words of the specification: every non-empty
filter field equals the corresponding attribute of the series. -/
def matchesProp (prop : ObsProp) (series : SourceSeries) : Bool :=
  decide ((prop.Mmethod = "" ∨ prop.Mmethod = series.MeasurementMethod) ∧
    (prop.Operiod = "" ∨ prop.Operiod = series.ObservationPeriod) ∧
    (prop.Unit = "" ∨ prop.Unit = series.Unit) ∧
    (prop.Sfactor = "" ∨ prop.Sfactor = series.ScalingFactor))

/-- A rank for the examples: import `S1` ranks first. -/
def demoRank (importName : String) : Nat := if importName = "S1" then 0 else 1

/-- A sort by `demoRank` for the examples. -/
def demoSort : List SourceSeries → List SourceSeries :=
  List.insertionSort (fun a b => demoRank a.ImportName ≤ demoRank b.ImportName)

/-- A sort by `demoRank` for the examples, on the protobuf series. -/
def demoSortPb : List pb.SourceSeries → List pb.SourceSeries :=
  List.insertionSort (fun a b => demoRank a.ImportName ≤ demoRank b.ImportName)

/-- The shape shared by the loops that keep the latest date: the state is
replaced when the date of the entry is greater than the date held. -/
def keepLatest {X P : Type} (key : X → String) (out : X → P) (st : String × P) (x : X) :
    String × P :=
  if gtString (key x) st.1 then (key x, out x) else st

/-- The entries of the date maps of a list of series, in the order in which
the nested loops visit them, each with its series. -/
def entriesOf {σ : Type} (val : σ → GoMap String Float64) (ss : List σ) :
    List (σ × String × Float64) :=
  ss.flatMap (fun s => (val s).map (fun e => (s, e)))

/-- Two series that differ only in the iteration order of their date maps. -/
def SameUpToOrder (a b : SourceSeries) : Prop :=
  a.Val.Perm b.Val ∧ (GoMap.keys a.Val).Nodup ∧
    b = ⟨a.ImportName, a.ProvenanceURL, a.MeasurementMethod, a.ObservationPeriod,
      a.ScalingFactor, a.Unit, b.Val⟩

/-- Two protobuf series that differ only in the iteration order of their date
maps. -/
def SameUpToOrderPb (a b : pb.SourceSeries) : Prop :=
  a.Val.Perm b.Val ∧ (GoMap.keys a.Val).Nodup ∧
    b = ⟨a.ImportName, a.ProvenanceUrl, a.MeasurementMethod, a.ObservationPeriod,
      a.ScalingFactor, a.Unit, b.Val⟩

/-- Series for the examples: S1 (ranked first) has 2019 only, S2 has 2020 and
2019; S2 is listed first. -/
def demoSeries : ObsTimeSeries :=
  ⟨"geoId/06", [], "",
    [⟨"S2", "u2", "", "", "", "", [("2020", 2), ("2019", 9)]⟩,
      ⟨"S1", "u1", "", "", "", "", [("2019", 1)]⟩]⟩

/-- The protobuf form of `demoSeries`. -/
def demoSeriesPb : pb.ObsTimeSeries :=
  ⟨[⟨"S2", "u2", "", "", "", "", [("2020", 2), ("2019", 9)]⟩,
    ⟨"S1", "u1", "", "", "", "", [("2019", 1)]⟩]⟩

/-- The result documented for `getValueFromBestSource` with an empty date
(lines 102-103): the latest value of the highest ranked source series, that is
the value at the greatest date of the first series in sorted order. -/
def latestOfTopRanked (sorted : List SourceSeries) : Option Float64 :=
  match sorted with
  | [] => none
  | series :: _ =>
    match series.Val.foldl latestStep ("", 0) with
    | (latestDate, result) => if latestDate = "" then none else some result

/-- A channel content in which no store sent two different values for one
token. -/
def Consistent (elems : List (chanData ι)) : Prop :=
  ∀ e1 ∈ elems, ∀ e2 ∈ elems, e1.token = e2.token → e1.table = e2.table → e1.data = e2.data

/-- The protobuf series with the same fields as a plain series. -/
def toPb (s : SourceSeries) : pb.SourceSeries :=
  ⟨s.ImportName, s.ProvenanceURL, s.MeasurementMethod, s.ObservationPeriod,
    s.ScalingFactor, s.Unit, s.Val⟩

/-! # Theorems -/

/-! ### Lemmas on Go maps -/

namespace GoMap

variable {κ ν : Type} [DecidableEq κ]

theorem get_set (m : GoMap κ ν) (k k' : κ) (v : ν) :
    (m.set k v).get k' = if k = k' then some v else m.get k' := by
  induction m with
  | nil => simp [set, get]
  | cons hd tl ih =>
    obtain ⟨a, b⟩ := hd
    by_cases h1 : a = k
    · subst h1
      by_cases h2 : a = k' <;> simp [set, get, h2]
    · by_cases h2 : k = k'
      · subst h2
        simp [set, get, h1, ih]
      · simp only [set, h1, if_false, get, ih, h2]

theorem keys_set (m : GoMap κ ν) (k : κ) (v : ν) :
    (m.set k v).keys = if k ∈ m.keys then m.keys else m.keys ++ [k] := by
  induction m with
  | nil => simp [set, keys]
  | cons hd tl ih =>
    obtain ⟨a, b⟩ := hd
    by_cases h1 : a = k
    · subst h1
      simp [set, keys]
    · have h1' : ¬ k = a := fun h => h1 h.symm
      simp only [keys] at ih
      by_cases h2 : k ∈ tl.map Prod.fst
      · simp [set, keys, h1, h1', h2, ih]
      · simp [set, keys, h1, h1', h2, ih]

theorem nodup_keys_set (m : GoMap κ ν) (k : κ) (v : ν) (h : m.keys.Nodup) :
    (m.set k v).keys.Nodup := by
  rw [keys_set]
  split
  · exact h
  · rename_i hk
    exact List.Nodup.append h (List.nodup_singleton k) (by simpa using hk)

theorem get_eq_none_iff (m : GoMap κ ν) (k : κ) : m.get k = none ↔ k ∉ m.keys := by
  induction m with
  | nil => simp [get, keys]
  | cons hd tl ih =>
    obtain ⟨a, b⟩ := hd
    simp only [keys] at ih
    by_cases h : a = k
    · simp [get, keys, h]
    · have h' : ¬ k = a := fun e => h e.symm
      simp [get, keys, h, h', ih]

theorem mem_of_get (m : GoMap κ ν) (k : κ) (v : ν) (h : m.get k = some v) : (k, v) ∈ m := by
  induction m with
  | nil => simp [get] at h
  | cons hd tl ih =>
    obtain ⟨a, b⟩ := hd
    by_cases h1 : a = k
    · simp [get, h1] at h
      simp [h1, h]
    · simp [get, h1] at h
      exact List.mem_cons_of_mem _ (ih h)

end GoMap

/-! ### The reduction pass -/

theorem look_collectStep (tmp : GoMap String (GoMap Table (Option ι))) (e : chanData ι)
    (token : String) (t : Table) :
    look (collectStep tmp e) token t =
      if e.token = token ∧ e.table = t then some e.data else look tmp token t := by
  unfold collectStep look
  cases hg : tmp.get e.token with
  | none =>
    by_cases h1 : e.token = token
    · subst h1
      by_cases h2 : e.table = t <;> simp [GoMap.get_set, hg, h2, GoMap.set, GoMap.get]
    · simp [GoMap.get_set, hg, h1]
  | some td =>
    by_cases h1 : e.token = token
    · subst h1
      by_cases h2 : e.table = t <;> simp [GoMap.get_set, hg, h2]
    · simp [GoMap.get_set, hg, h1]

theorem lastEmitted_cons (e : chanData ι) (es : List (chanData ι)) (token : String) (t : Table) :
    lastEmitted (e :: es) token t =
      match lastEmitted es token t with
      | some d => some d
      | none => if e.token = token ∧ e.table = t then some e.data else none := by
  unfold lastEmitted
  rw [List.reverse_cons, List.find?_append]
  cases h : es.reverse.find? (fun e => decide (e.token = token ∧ e.table = t)) with
  | some x => simp
  | none =>
    by_cases hp : e.token = token ∧ e.table = t
    · simp [List.find?, hp]
    · simp [List.find?, hp]

theorem look_foldl_collectStep (elems : List (chanData ι))
    (tmp : GoMap String (GoMap Table (Option ι))) (token : String) (t : Table) :
    look (elems.foldl collectStep tmp) token t =
      match lastEmitted elems token t with
      | some d => some d
      | none => look tmp token t := by
  induction elems generalizing tmp with
  | nil => simp [lastEmitted]
  | cons e es ih =>
    rw [List.foldl_cons, ih, lastEmitted_cons, look_collectStep]
    cases lastEmitted es token t with
    | some d => rfl
    | none =>
      by_cases hp : e.token = token ∧ e.table = t
      · simp [hp]
      · simp [hp]

theorem look_collect (elems : List (chanData ι)) (token : String) (t : Table) :
    look (collect elems) token t = lastEmitted elems token t := by
  unfold collect
  rw [look_foldl_collectStep]
  cases lastEmitted elems token t <;> simp [look, GoMap.get]

theorem nodup_keys_collectStep (tmp : GoMap String (GoMap Table (Option ι))) (e : chanData ι)
    (h : tmp.keys.Nodup) : (collectStep tmp e).keys.Nodup := by
  unfold collectStep
  apply GoMap.nodup_keys_set
  split
  · exact GoMap.nodup_keys_set _ _ _ h
  · exact h

theorem nodup_keys_foldl_collectStep (elems : List (chanData ι))
    (tmp : GoMap String (GoMap Table (Option ι))) (h : tmp.keys.Nodup) :
    (elems.foldl collectStep tmp).keys.Nodup := by
  induction elems generalizing tmp with
  | nil => exact h
  | cons e es ih => exact ih _ (nodup_keys_collectStep tmp e h)

theorem nodup_keys_collect (elems : List (chanData ι)) : (collect elems).keys.Nodup :=
  nodup_keys_foldl_collectStep elems [] List.nodup_nil

theorem get_foldl_reduceStep (btTables : List Table)
    (l : GoMap String (GoMap Table (Option ι))) (result : GoMap String (Option ι))
    (token : String) (hnd : l.keys.Nodup) :
    (l.foldl (reduceStep btTables) result).get token =
      match (l.get token).bind (pick btTables) with
      | some d => some d
      | none => result.get token := by
  induction l generalizing result with
  | nil => simp [GoMap.get]
  | cons hd tl ih =>
    obtain ⟨k, td⟩ := hd
    have hnd' : k ∉ GoMap.keys tl ∧ (GoMap.keys tl).Nodup := by
      simpa [GoMap.keys] using hnd
    rw [List.foldl_cons, ih _ hnd'.2]
    by_cases hk : k = token
    · subst hk
      have hnone : GoMap.get tl k = none := (GoMap.get_eq_none_iff tl k).2 hnd'.1
      simp only [hnone, GoMap.get, if_true, Option.bind, reduceStep]
      cases hp : pick btTables td with
      | none => simp
      | some d => simp [GoMap.get_set]
    · simp only [GoMap.get, hk, if_false, reduceStep]
      cases (GoMap.get tl token).bind (pick btTables) with
      | some d => rfl
      | none =>
        cases hp : pick btTables td with
        | none => simp
        | some d => simp [GoMap.get_set, hk]

theorem get_merge (btTables : List Table) (elems : List (chanData ι)) (token : String) :
    (merge btTables elems).get token = ((collect elems).get token).bind (pick btTables) := by
  unfold merge reduce
  rw [get_foldl_reduceStep _ _ _ _ (nodup_keys_collect elems)]
  cases ((collect elems).get token).bind (pick btTables) <;> simp [GoMap.get]

theorem pick_some (btTables : List Table) (td : GoMap Table (Option ι)) (d : Option ι)
    (h : pick btTables td = some d) :
    ∃ (i : Nat) (hi : i < btTables.length), td.get btTables[i] = some d ∧
      ∀ (j : Nat) (hj : j < btTables.length), j < i → td.get btTables[j] = none := by
  induction btTables with
  | nil => simp [pick] at h
  | cons t rest ih =>
    unfold pick at h
    cases hg : td.get t with
    | some x =>
      rw [hg] at h
      refine ⟨0, by simp, ?_, ?_⟩
      · simpa [hg] using h
      · intro j _ hj
        omega
    | none =>
      rw [hg] at h
      obtain ⟨i, hi, h1, h2⟩ := ih h
      refine ⟨i + 1, by simpa using hi, by simpa using h1, ?_⟩
      intro j hj hji
      cases j with
      | zero => simpa using hg
      | succ j =>
        have := h2 j (by simpa using hj) (by omega)
        simpa using this

theorem pick_none (btTables : List Table) (td : GoMap Table (Option ι))
    (h : pick btTables td = none) : ∀ t ∈ btTables, td.get t = none := by
  induction btTables with
  | nil => simp
  | cons t rest ih =>
    unfold pick at h
    cases hg : td.get t with
    | some x => rw [hg] at h; simp at h
    | none =>
      rw [hg] at h
      intro t' ht'
      rcases List.mem_cons.1 ht' with rfl | hmem
      · exact hg
      · exact ih h t' hmem

theorem lastEmitted_some (elems : List (chanData ι)) (token : String) (t : Table)
    (d : Option ι) (h : lastEmitted elems token t = some d) :
    ∃ e ∈ elems, e.token = token ∧ e.table = t ∧ e.data = d := by
  unfold lastEmitted at h
  cases hf : elems.reverse.find? (fun e => decide (e.token = token ∧ e.table = t)) with
  | none => rw [hf] at h; simp at h
  | some e =>
    rw [hf] at h
    have hm := List.mem_of_find?_eq_some hf
    have hp := List.find?_some hf
    simp only [decide_eq_true_eq] at hp
    exact ⟨e, by simpa using hm, hp.1, hp.2, by simpa using h⟩

theorem lastEmitted_none (elems : List (chanData ι)) (token : String) (t : Table)
    (h : lastEmitted elems token t = none) :
    ∀ e ∈ elems, e.token = token → e.table ≠ t := by
  unfold lastEmitted at h
  simp only [Option.map_eq_none', List.find?_eq_none, List.mem_reverse, decide_eq_true_eq] at h
  intro e he h1 h2
  exact h e he ⟨h1, h2⟩

/-- C1. Priority merge: for a token that some store of `btTables` sent, the
result map holds the value sent (last) by the earliest-indexed store of
`btTables` that sent the token. -/
theorem priority_merge (btTables : List Table) (elems : List (chanData ι)) (token : String)
    (h : ∃ e ∈ elems, e.token = token ∧ e.table ∈ btTables) :
    ∃ (i : Nat) (hi : i < btTables.length) (e : chanData ι),
      e ∈ elems ∧ e.token = token ∧ e.table = btTables[i] ∧
      (∀ (j : Nat) (hj : j < btTables.length), j < i →
        ∀ e' ∈ elems, e'.token = token → e'.table ≠ btTables[j]) ∧
      lastEmitted elems token btTables[i] = some e.data ∧
      (merge btTables elems).get token = some e.data := by
  obtain ⟨e0, he0, htok, htab⟩ := h
  have hlook : ∀ t, look (collect elems) token t = lastEmitted elems token t :=
    fun t => look_collect elems token t
  have hne : lastEmitted elems token e0.table ≠ none := by
    intro hn
    exact lastEmitted_none elems token e0.table hn e0 he0 htok rfl
  cases hg : (collect elems).get token with
  | none =>
    have := hlook e0.table
    simp [look, hg] at this
    exact absurd this.symm hne
  | some td =>
    have htd : ∀ t, td.get t = lastEmitted elems token t := by
      intro t
      have := hlook t
      simpa [look, hg] using this
    cases hp : pick btTables td with
    | none =>
      have := pick_none btTables td hp e0.table htab
      rw [htd] at this
      exact absurd this hne
    | some d =>
      obtain ⟨i, hi, h1, h2⟩ := pick_some btTables td d hp
      rw [htd] at h1
      obtain ⟨e, he, het, hetab, hed⟩ := lastEmitted_some elems token _ d h1
      refine ⟨i, hi, e, he, het, hetab, ?_, ?_, ?_⟩
      · intro j hj hji
        have := h2 j hj hji
        rw [htd] at this
        exact lastEmitted_none elems token _ this
      · rw [h1, hed]
      · rw [get_merge, hg, hed]
        simpa using hp

/-- A witness of C1: stores 0 and 2 both sent token T, store 1 did not. -/
theorem priority_merge_witness :
    (∃ e ∈ ([⟨"T", some 20, 2⟩, ⟨"T", some 10, 0⟩] : List (chanData Nat)),
      e.token = "T" ∧ e.table ∈ [0, 1, 2]) ∧
    ∃ (i : Nat) (hi : i < [0, 1, 2].length) (e : chanData Nat),
      e ∈ ([⟨"T", some 20, 2⟩, ⟨"T", some 10, 0⟩] : List (chanData Nat)) ∧
      e.token = "T" ∧ e.table = [0, 1, 2][i] ∧
      (∀ (j : Nat) (hj : j < [0, 1, 2].length), j < i →
        ∀ e' ∈ ([⟨"T", some 20, 2⟩, ⟨"T", some 10, 0⟩] : List (chanData Nat)),
          e'.token = "T" → e'.table ≠ [0, 1, 2][j]) ∧
      lastEmitted [⟨"T", some 20, 2⟩, ⟨"T", some 10, 0⟩] "T" [0, 1, 2][i] = some e.data ∧
      (merge [0, 1, 2] [⟨"T", some 20, 2⟩, ⟨"T", some 10, 0⟩]).get "T" = some e.data :=
  ⟨⟨⟨"T", some 10, 0⟩, by simp, rfl, by simp⟩,
    priority_merge [0, 1, 2] [⟨"T", some 20, 2⟩, ⟨"T", some 10, 0⟩] "T"
      ⟨⟨"T", some 10, 0⟩, by simp, rfl, by simp⟩⟩

/-! ### The chunking loop -/

theorem slice_length_le {α : Type} (l : List α) (B i : Nat) :
    (slice l (i * B) (min ((i + 1) * B) l.length)).length ≤ B := by
  unfold slice
  rw [List.length_take, List.length_drop]
  have h : (i + 1) * B = i * B + B := by rw [Nat.add_mul, Nat.one_mul]
  rw [h]
  omega

theorem flatten_windows {α : Type} (l : List α) (B m : Nat) (hm : m ≤ l.length / B + 1) :
    ((List.range m).map (fun i => slice l (i * B) (min ((i + 1) * B) l.length))).flatten =
      l.take (min (m * B) l.length) := by
  induction m with
  | zero => simp
  | succ m ih =>
    have hmB : m * B ≤ l.length := by
      have h1 : m ≤ l.length / B := by omega
      calc m * B ≤ l.length / B * B := Nat.mul_le_mul_right B h1
        _ ≤ l.length := Nat.div_mul_le_self l.length B
    rw [List.range_succ, List.map_append, List.flatten_append, ih (by omega)]
    have h : (m + 1) * B = m * B + B := by rw [Nat.add_mul, Nat.one_mul]
    simp only [List.map_cons, List.map_nil, List.flatten_cons, List.flatten_nil,
      List.append_nil, slice]
    rw [h]
    have e1 : min (m * B) l.length = m * B := by omega
    have e2 : min (m * B + B) l.length = m * B + (min (m * B + B) l.length - m * B) := by
      omega
    rw [e1]
    conv_rhs => rw [e2, List.take_add]

theorem isChunking_windows {α : Type} (l : List α) (B : Nat) (hB : 0 < B) :
    IsChunking B l
      ((List.range (l.length / B + 1)).map
        (fun i => slice l (i * B) (min ((i + 1) * B) l.length))) := by
  refine ⟨?_, ?_, ?_⟩
  · intro i hi
    simp only [List.getElem_map, List.getElem_range]
    exact ⟨trivial, slice_length_le l B i⟩
  · intro i j hij _
    have h1 : (i + 1) * B ≤ j * B := Nat.mul_le_mul_right B hij
    omega
  · rw [flatten_windows l B _ (le_refl _)]
    have h1 : l.length < (l.length / B + 1) * B := by
      have h2 := Nat.div_add_mod l.length B
      have h3 := Nat.mod_lt l.length hB
      have h4 : (l.length / B + 1) * B = B * (l.length / B) + B := by
        rw [Nat.add_mul, Nat.one_mul, Nat.mul_comm]
      omega
    have h5 : min ((l.length / B + 1) * B) l.length = l.length := by omega
    rw [h5, List.take_length]

theorem right_eq_min (a S : Nat) : (if a > S then S else a) = min a S := by
  split <;> omega

/-- C3. RowSet partitioning: for a key list or a key-range list and a batch size
`B > 0`, the sub-RowSets built by the chunking loop are the contiguous slices
`[i*B, min((i+1)*B, S))` of the input, each of length at most `B`, pairwise
non-overlapping, and their concatenation in loop order is the input. -/
theorem rowSet_partition (B : Nat) (hB : 0 < B) (rowList : List String)
    (rowRangeList : List (String × String)) :
    (rowList ≠ [] → ∃ parts : List (List String),
      rowSetParts B rowList.length rowList rowRangeList = parts.map RowSet.RowList ∧
      IsChunking B rowList parts) ∧
    (rowList = [] → ∃ parts : List (List (String × String)),
      rowSetParts B rowRangeList.length rowList rowRangeList = parts.map RowSet.RowRangeList ∧
      IsChunking B rowRangeList parts) := by
  constructor
  · intro hne
    refine ⟨_, ?_, isChunking_windows rowList B hB⟩
    have hpos : rowList.length > 0 := List.length_pos.2 hne
    rw [rowSetParts, List.map_map]
    apply List.map_congr_left
    intro i _
    simp [rowSetPart, right_eq_min, hpos]
  · intro he
    subst he
    refine ⟨_, ?_, isChunking_windows rowRangeList B hB⟩
    rw [rowSetParts, List.map_map]
    apply List.map_congr_left
    intro i _
    simp [rowSetPart, right_eq_min]

/-- A witness of C3: five keys in batches of two. -/
theorem rowSet_partition_witness :
    0 < 2 ∧
    ((["a", "b", "c", "d", "e"] ≠ [] → ∃ parts : List (List String),
      rowSetParts 2 ["a", "b", "c", "d", "e"].length ["a", "b", "c", "d", "e"] [] =
        parts.map RowSet.RowList ∧
      IsChunking 2 ["a", "b", "c", "d", "e"] parts) ∧
    (["a", "b", "c", "d", "e"] = [] → ∃ parts : List (List (String × String)),
      rowSetParts 2 ([] : List (String × String)).length ["a", "b", "c", "d", "e"] [] =
        parts.map RowSet.RowRangeList ∧
      IsChunking 2 [] parts)) :=
  ⟨by decide, rowSet_partition 2 (by decide) ["a", "b", "c", "d", "e"] []⟩

/-- C4. The chunking loop runs for `i = 0, ..., S/B`: it builds `S/B + 1`
sub-RowSets, which is `⌈S/B⌉` when `B` does not divide `S` and one more than
`⌈S/B⌉` when `S` is an exact multiple of `B`; the extra sub-RowSet is empty. -/
theorem chunk_count (B S : Nat) (hB : 0 < B) (rowList : List String)
    (rowRangeList : List (String × String)) :
    (rowSetParts B S rowList rowRangeList).length = S / B + 1 ∧
    (B ∣ S → (rowSetParts B S rowList rowRangeList).length = (S + B - 1) / B + 1) ∧
    (¬ B ∣ S → (rowSetParts B S rowList rowRangeList).length = (S + B - 1) / B) := by
  have hlen : (rowSetParts B S rowList rowRangeList).length = S / B + 1 := by
    simp [rowSetParts]
  refine ⟨hlen, ?_, ?_⟩
  · rintro ⟨k, rfl⟩
    rw [hlen]
    have h1 : B * k / B = k := Nat.mul_div_cancel_left k hB
    have h2 : (B * k + B - 1) / B = k := by
      have h3 : B * k + B - 1 = B - 1 + B * k := by omega
      rw [h3, Nat.add_mul_div_left _ _ hB, Nat.div_eq_of_lt (by omega)]
      omega
    rw [h1, h2]
  · intro hnd
    rw [hlen]
    have h2 := Nat.div_add_mod S B
    have h3 := Nat.mod_lt S hB
    have h4 : S % B ≠ 0 := fun h => hnd (Nat.dvd_of_mod_eq_zero h)
    generalize S % B = r at h2 h3 h4
    generalize S / B = q at h2
    have h5 : S + B - 1 = (r - 1) + B * (q + 1) := by
      rw [Nat.mul_add, Nat.mul_one]
      omega
    have h6 : r - 1 < B := by omega
    rw [h5, Nat.add_mul_div_left _ _ hB, Nat.div_eq_of_lt h6]
    omega

/-- A witness of C4: two keys with batch size two give two sub-RowSets, the
second one empty, while `⌈2/2⌉ = 1`. -/
theorem chunk_count_witness :
    0 < 2 ∧
    ((rowSetParts 2 2 ["a", "b"] []).length = 2 / 2 + 1 ∧
    (2 ∣ 2 → (rowSetParts 2 2 ["a", "b"] []).length = (2 + 2 - 1) / 2 + 1) ∧
    (¬ 2 ∣ 2 → (rowSetParts 2 2 ["a", "b"] []).length = (2 + 2 - 1) / 2)) ∧
    rowSetParts 2 2 ["a", "b"] [] = [RowSet.RowList ["a", "b"], RowSet.RowList []] :=
  ⟨by decide, chunk_count 2 2 (by decide) ["a", "b"] [], by decide⟩

/-! ### The whole call -/

theorem scheduledTasks_nil (B S : Nat) (rowList : List String)
    (rowRangeList : List (String × String)) :
    scheduledTasks B S [] rowList rowRangeList = [] := by
  simp [scheduledTasks]

theorem readBody_no_store (w : World) (t : Table) (rowList : List String)
    (action : String → String → Except Status (Option ι))
    (getToken : Option (String → Except Status String))
    (hB : 0 < w.BtBatchQuerySize) (hne : rowList ≠ []) :
    bigTableReadRowsParallel w (some t) [] (.RowList rowList) action getToken =
      ⟨[], .returned (some []) none⟩ := by
  have hlen : rowList.length ≠ 0 := fun h => hne (List.length_eq_zero.1 h)
  have hB' : w.BtBatchQuerySize ≠ 0 := by omega
  simp [bigTableReadRowsParallel, readBody, hlen, hB', scheduledTasks_nil, runTasks, merge,
    reduce, collect]

/-- C6. What the code does with an empty table list: the test of line 87 reads
`btTable` and nothing tests the list. Past that test a call with no store never
returns the fault NotFound "Bigtable instance is not specified", whatever the
RowSet; for the key list of one place it schedules no task and returns an empty
map and no error. -/
theorem empty_table_list_not_rejected :
    (∀ (w : World) (t : Table) (rowSet : RowSet)
      (action : String → String → Except Status (Option Nat))
      (getToken : Option (String → Except Status String)),
      (bigTableReadRowsParallel w (some t) [] rowSet action getToken).outcome ≠
        .returned none (some ⟨.NotFound, "Bigtable instance is not specified"⟩)) ∧
    bigTableReadRowsParallel demoWorld (some 1) [] (.RowList ["geoId/06"]) demoAction none =
      ⟨[], .returned (some []) none⟩ := by
  constructor
  · intro w t rowSet action getToken
    cases rowSet with
    | RowList rowList =>
      simp only [bigTableReadRowsParallel, Option.isNone_some, readBody, scheduledTasks_nil,
        runTasks, List.foldl_nil, List.length_nil, Bool.false_eq_true, if_false]
      split_ifs <;> simp
    | RowRangeList rowRangeList =>
      simp only [bigTableReadRowsParallel, Option.isNone_some, readBody, scheduledTasks_nil,
        runTasks, List.foldl_nil, List.length_nil, Bool.false_eq_true, if_false]
      split_ifs <;> simp
    | other desc =>
      simp [bigTableReadRowsParallel]
  · decide

/-- C7. A call with an empty store list and a non-empty key list, past the test
of line 87 and with a positive batch size, schedules no task and returns no
error and a result map in which every requested token, and every other token,
looks up as no value. -/
theorem empty_stores_no_value (w : World) (t : Table) (rowList : List String)
    (action : String → String → Except Status (Option ι))
    (getToken : Option (String → Except Status String))
    (hB : 0 < w.BtBatchQuerySize) (hne : rowList ≠ []) :
    ∃ result : GoMap String (Option ι),
      bigTableReadRowsParallel w (some t) [] (.RowList rowList) action getToken =
        ⟨[], .returned (some result) none⟩ ∧
      (∀ key ∈ rowList, ∀ token : String,
        (getToken.getD w.KeyToDcid) key = .ok token → result.get token = none) ∧
      ∀ token : String, result.get token = none :=
  ⟨[], readBody_no_store w t rowList action getToken hB hne, fun _ _ _ _ => rfl, fun _ => rfl⟩

/-- A witness of C7: the key list `["k"]`. -/
theorem empty_stores_no_value_witness :
    (0 < demoWorld.BtBatchQuerySize ∧ ["k"] ≠ []) ∧
    ∃ result : GoMap String (Option Nat),
      bigTableReadRowsParallel demoWorld (some 1) [] (.RowList ["k"]) demoAction none =
        ⟨[], .returned (some result) none⟩ ∧
      (∀ key ∈ ["k"], ∀ token : String,
        ((none : Option (String → Except Status String)).getD demoWorld.KeyToDcid) key =
          .ok token → result.get token = none) ∧
      ∀ token : String, result.get token = none :=
  ⟨⟨by decide, by decide⟩,
    empty_stores_no_value demoWorld 1 ["k"] demoAction none (by decide) (by decide)⟩

/-! ### Keys of the result map -/

theorem get_merge_isSome_iff (btTables : List Table) (elems : List (chanData ι))
    (token : String) :
    ((merge btTables elems).get token).isSome ↔
      ∃ e ∈ elems, e.token = token ∧ e.table ∈ btTables := by
  rw [get_merge]
  constructor
  · intro h
    cases hg : (collect elems).get token with
    | none => simp [hg] at h
    | some td =>
      cases hp : pick btTables td with
      | none => simp [hg, hp] at h
      | some d =>
        obtain ⟨i, hi, h1, _⟩ := pick_some btTables td d hp
        have hl := look_collect elems token btTables[i]
        simp only [look, hg, Option.bind] at hl
        rw [h1] at hl
        obtain ⟨e, he, het, hetab, _⟩ := lastEmitted_some elems token _ d hl.symm
        exact ⟨e, he, het, by rw [hetab]; exact List.getElem_mem hi⟩
  · rintro ⟨e0, he0, htok, htab⟩
    have hne : lastEmitted elems token e0.table ≠ none := by
      intro hn
      exact lastEmitted_none elems token e0.table hn e0 he0 htok rfl
    have hl := look_collect elems token e0.table
    cases hg : (collect elems).get token with
    | none =>
      simp only [look, hg, Option.bind] at hl
      exact absurd hl.symm hne
    | some td =>
      simp only [look, hg, Option.bind] at hl
      cases hp : pick btTables td with
      | none =>
        have := pick_none btTables td hp e0.table htab
        rw [hl] at this
        exact absurd this hne
      | some d => simp [hp]

theorem nodup_keys_foldl_reduceStep (btTables : List Table)
    (l : GoMap String (GoMap Table (Option ι))) (result : GoMap String (Option ι))
    (h : result.keys.Nodup) : (l.foldl (reduceStep btTables) result).keys.Nodup := by
  induction l generalizing result with
  | nil => exact h
  | cons hd tl ih =>
    rw [List.foldl_cons]
    apply ih
    unfold reduceStep
    split
    · exact GoMap.nodup_keys_set _ _ _ h
    · exact h

theorem nodup_keys_merge (btTables : List Table) (elems : List (chanData ι)) :
    (merge btTables elems).keys.Nodup :=
  nodup_keys_foldl_reduceStep btTables _ [] List.nodup_nil

theorem mem_keys_merge_iff (btTables : List Table) (elems : List (chanData ι))
    (token : String) :
    token ∈ (merge btTables elems).keys ↔
      ∃ e ∈ elems, e.token = token ∧ e.table ∈ btTables := by
  rw [← get_merge_isSome_iff]
  have := GoMap.get_eq_none_iff (merge btTables elems) token
  cases hg : (merge btTables elems).get token with
  | none =>
    rw [hg] at this
    simp [this.1 rfl]
  | some d =>
    rw [hg] at this
    simp only [Option.isSome_some, iff_true]
    by_contra hc
    have := this.2 hc
    simp at this

/-! ### Who sends on the channel -/

theorem rowCallback_snd (w : World) (t : Table)
    (getToken : Option (String → Except Status String))
    (action : String → String → Except Status (Option ι)) (row : Row)
    (ch : List (chanData ι)) :
    ∀ e ∈ (rowCallback w t getToken action row ch).2, e ∈ ch ∨ e.table = t := by
  intro e he
  unfold rowCallback at he
  split at he
  · exact Or.inl he
  · split at he
    · exact Or.inl he
    · split at he
      · exact Or.inl he
      · split at he
        · exact Or.inl he
        · rcases List.mem_append.1 he with h | h
          · exact Or.inl h
          · right
            simp only [List.mem_singleton] at h
            rw [h]

theorem ReadRows_snd (w : World) (t : Table)
    (getToken : Option (String → Except Status String))
    (action : String → String → Except Status (Option ι)) (scanErr : Option Status)
    (rows : List Row) (ch : List (chanData ι)) :
    ∀ e ∈ (ReadRows rows scanErr (rowCallback w t getToken action) ch).2,
      e ∈ ch ∨ e.table = t := by
  induction rows generalizing ch with
  | nil => intro e he; exact Or.inl he
  | cons r rest ih =>
    intro e he
    unfold ReadRows at he
    have hcb := rowCallback_snd w t getToken action r ch
    cases hr : rowCallback w t getToken action r ch with
    | mk b s1 =>
      rw [hr] at he hcb
      cases b with
      | true =>
        rcases ih s1 e he with h | h
        · exact hcb e h
        · exact Or.inr h
      | false => exact hcb e he

theorem readRowFn_eq (w : World) (t : Table) (rowSetPart : RowSet)
    (getToken : Option (String → Except Status String))
    (action : String → String → Except Status (Option ι)) (ch : List (chanData ι)) :
    readRowFn w t rowSetPart getToken action ch =
      ReadRows ((w.content t).filter (fun r => rowSetPart.selects r.key))
        (w.scanErr t rowSetPart) (rowCallback w t getToken action) ch := by
  unfold readRowFn
  split <;> simp_all

theorem foldl_tasks_tables (w : World) (btTables : List Table)
    (getToken : Option (String → Except Status String))
    (action : String → String → Except Status (Option ι))
    (tasks : List (Table × RowSet)) (st : Option Status × List (chanData ι))
    (htasks : ∀ task ∈ tasks, task.1 ∈ btTables) (hst : ∀ e ∈ st.2, e.table ∈ btTables) :
    ∀ e ∈ (tasks.foldl
      (fun st task =>
        match readRowFn w task.1 task.2 getToken action st.2 with
        | (err, ch) => (st.1.orElse (fun _ => err), ch)) st).2, e.table ∈ btTables := by
  induction tasks generalizing st with
  | nil => exact hst
  | cons task rest ih =>
    rw [List.foldl_cons]
    apply ih
    · intro task' h
      exact htasks task' (List.mem_cons_of_mem _ h)
    · intro e he
      rw [readRowFn_eq] at he
      rcases ReadRows_snd w task.1 getToken action _ _ st.2 e he with h | h
      · exact hst e h
      · rw [h]
        exact htasks task (List.mem_cons_self _ _)

theorem runTasks_tables (w : World) (btTables : List Table) (B S : Nat)
    (rowList : List String) (rowRangeList : List (String × String))
    (getToken : Option (String → Except Status String))
    (action : String → String → Except Status (Option ι)) :
    ∀ e ∈ (runTasks w getToken action
      (scheduledTasks B S btTables rowList rowRangeList)).2, e.table ∈ btTables := by
  unfold runTasks
  apply foldl_tasks_tables
  · intro task h
    simp only [scheduledTasks, List.mem_flatMap, List.mem_map] at h
    obtain ⟨_, _, t, ht, rfl⟩ := h
    exact ht
  · intro e he
    simp at he

/-- C2, as stated, fails: keys `a` and `k` are requested, no table holds `k`,
the call succeeds and `k` is not a key of the result map. -/
theorem requested_token_absent :
    (bigTableReadRowsParallel demoWorld (some 1) [1, 2] (.RowList ["a", "k"])
      demoAction none).outcome = .returned (some [("a", some 1)]) none ∧
    ((none : Option (String → Except Status String)).getD demoWorld.KeyToDcid) "k" =
      Except.ok "k" ∧
    "k" ∉ GoMap.keys ([("a", some 1)] : GoMap String (Option Nat)) := by
  refine ⟨by decide, rfl, by decide⟩

/-! ### Failing rows -/

theorem rowCallback_fst_of_rowFails (w : World) (t : Table)
    (getToken : Option (String → Except Status String))
    (action : String → String → Except Status (Option ι)) (row : Row)
    (ch : List (chanData ι)) (h : rowFails w getToken action row) :
    (rowCallback w t getToken action row ch).1 = false := by
  unfold rowFails at h
  unfold rowCallback
  cases hfam : row.family with
  | nil => simp [hfam] at h
  | cons raw rest =>
    simp only [hfam] at h ⊢
    cases hgt : (getToken.getD w.KeyToDcid) row.key with
    | error err => rfl
    | ok token =>
      simp only [hgt] at h ⊢
      cases hud : w.UnzipAndDecode raw with
      | error err => rfl
      | ok jsonRaw =>
        simp only [hud] at h ⊢
        cases hact : action token jsonRaw with
        | error err => rfl
        | ok elem => simp [hact] at h

theorem ReadRows_fst_of_fails (w : World) (t : Table)
    (getToken : Option (String → Except Status String))
    (action : String → String → Except Status (Option ι)) (scanErr : Option Status)
    (rows : List Row) (row : Row) (hrow : row ∈ rows)
    (hfail : rowFails w getToken action row) (ch : List (chanData ι)) :
    (ReadRows rows scanErr (rowCallback w t getToken action) ch).1 = none := by
  induction rows generalizing ch with
  | nil => simp at hrow
  | cons r rest ih =>
    unfold ReadRows
    cases hr : rowCallback w t getToken action r ch with
    | mk b s1 =>
      cases b with
      | false => rfl
      | true =>
        simp only
        rcases List.mem_cons.1 hrow with rfl | hmem
        · have := rowCallback_fst_of_rowFails w t getToken action row ch hfail
          rw [hr] at this
          simp at this
        · exact ih hmem s1

/-- C5. What the code does on a failing row: when a scanned row with a payload
fails in token derivation, decoding or the transform, the callback returns
false, `ReadRows` stops without an error, and the task built by `readRowFn`
returns nil, not an error. -/
theorem failing_row_swallowed (w : World) (btTable : Table) (rowSetPart : RowSet)
    (getToken : Option (String → Except Status String))
    (action : String → String → Except Status (Option ι)) (elemChan : List (chanData ι))
    (row : Row) (hrow : row ∈ w.content btTable) (hsel : rowSetPart.selects row.key = true)
    (hfail : rowFails w getToken action row) :
    (readRowFn w btTable rowSetPart getToken action elemChan).1 = none := by
  rw [readRowFn_eq]
  apply ReadRows_fst_of_fails w btTable getToken action _ _ row _ hfail
  exact List.mem_filter.2 ⟨hrow, hsel⟩

/-- A witness of C5: the payload of row `b` of table 1 does not decode; the task
returns nil having sent the element of row `a`, and the whole call returns a
partial map without an error. -/
theorem failing_row_swallowed_witness :
    (⟨"b", ["bad"]⟩ ∈ demoWorld.content 1 ∧
      (RowSet.RowList ["a", "b"]).selects (Row.mk "b" ["bad"]).key = true ∧
      rowFails demoWorld none demoAction ⟨"b", ["bad"]⟩) ∧
    (readRowFn demoWorld 1 (.RowList ["a", "b"]) none demoAction []).1 = none ∧
    readRowFn demoWorld 1 (.RowList ["a", "b"]) none demoAction [] =
      (none, [⟨"a", some 1, 1⟩]) ∧
    (bigTableReadRowsParallel demoWorld (some 1) [1] (.RowList ["a", "b"])
      demoAction none).outcome = .returned (some [("a", some 1)]) none :=
  ⟨⟨by decide, by decide, by simp [rowFails, demoWorld]⟩,
    failing_row_swallowed demoWorld 1 (.RowList ["a", "b"]) none demoAction []
      ⟨"b", ["bad"]⟩ (by decide) (by decide) (by simp [rowFails, demoWorld]),
    by decide, by decide⟩

/-! ### The series filter -/

theorem filterStep_eq (prop : ObsProp) (result : List SourceSeries) (series : SourceSeries) :
    filterStep prop result series =
      if matchesProp prop series then result ++ [series] else result := by
  unfold filterStep matchesProp
  by_cases h1 : prop.Mmethod = "" ∨ prop.Mmethod = series.MeasurementMethod
  · have e1 : ¬ (prop.Mmethod ≠ "" ∧ prop.Mmethod ≠ series.MeasurementMethod) := by tauto
    rw [if_neg e1]
    by_cases h2 : prop.Operiod = "" ∨ prop.Operiod = series.ObservationPeriod
    · have e2 : ¬ (prop.Operiod ≠ "" ∧ prop.Operiod ≠ series.ObservationPeriod) := by tauto
      rw [if_neg e2]
      by_cases h3 : prop.Unit = "" ∨ prop.Unit = series.Unit
      · have e3 : ¬ (prop.Unit ≠ "" ∧ prop.Unit ≠ series.Unit) := by tauto
        rw [if_neg e3]
        by_cases h4 : prop.Sfactor = "" ∨ prop.Sfactor = series.ScalingFactor
        · have e4 : ¬ (prop.Sfactor ≠ "" ∧ prop.Sfactor ≠ series.ScalingFactor) := by tauto
          rw [if_neg e4, if_pos (decide_eq_true ⟨h1, h2, h3, h4⟩)]
        · have e4 : prop.Sfactor ≠ "" ∧ prop.Sfactor ≠ series.ScalingFactor := by tauto
          rw [if_pos e4, if_neg]
          rw [decide_eq_true_eq]
          exact fun h => h4 h.2.2.2
      · have e3 : prop.Unit ≠ "" ∧ prop.Unit ≠ series.Unit := by tauto
        rw [if_pos e3, if_neg]
        rw [decide_eq_true_eq]
        exact fun h => h3 h.2.2.1
    · have e2 : prop.Operiod ≠ "" ∧ prop.Operiod ≠ series.ObservationPeriod := by tauto
      rw [if_pos e2, if_neg]
      rw [decide_eq_true_eq]
      exact fun h => h2 h.2.1
  · have e1 : prop.Mmethod ≠ "" ∧ prop.Mmethod ≠ series.MeasurementMethod := by tauto
    rw [if_pos e1, if_neg]
    rw [decide_eq_true_eq]
    exact fun h => h1 h.1

theorem foldl_filterStep (prop : ObsProp) (in_ acc : List SourceSeries) :
    in_.foldl (filterStep prop) acc = acc ++ in_.filter (matchesProp prop) := by
  induction in_ generalizing acc with
  | nil => simp
  | cons series rest ih =>
    rw [List.foldl_cons, ih, filterStep_eq]
    by_cases h : matchesProp prop series = true
    · simp [h, List.filter_cons]
    · simp [h, List.filter_cons]

/-- C8. The function `filterSeries` returns exactly the sublist, in the original
order, of the series for which every non-empty filter field equals the
attribute of the series; with an all-empty filter the input is returned
unchanged, and when no series matches the result is empty. -/
theorem filterSeries_sublist (in_ : List SourceSeries) (prop : ObsProp) :
    filterSeries in_ prop = in_.filter (matchesProp prop) ∧
    (filterSeries in_ prop).Sublist in_ ∧
    (∀ series : SourceSeries, series ∈ filterSeries in_ prop ↔
      series ∈ in_ ∧
      (prop.Mmethod = "" ∨ prop.Mmethod = series.MeasurementMethod) ∧
      (prop.Operiod = "" ∨ prop.Operiod = series.ObservationPeriod) ∧
      (prop.Unit = "" ∨ prop.Unit = series.Unit) ∧
      (prop.Sfactor = "" ∨ prop.Sfactor = series.ScalingFactor)) ∧
    filterSeries in_ ⟨"", "", "", ""⟩ = in_ ∧
    ((∀ series ∈ in_, matchesProp prop series = false) → filterSeries in_ prop = []) := by
  have h : ∀ p : ObsProp, filterSeries in_ p = in_.filter (matchesProp p) := by
    intro p
    unfold filterSeries
    rw [foldl_filterStep]
    simp
  refine ⟨h prop, ?_, ?_, ?_, ?_⟩
  · rw [h]
    exact List.filter_sublist in_
  · intro series
    rw [h, List.mem_filter]
    simp [matchesProp]
  · rw [h]
    apply List.filter_eq_self.2
    intro a _
    simp [matchesProp]
  · intro hno
    rw [h]
    apply List.filter_eq_nil_iff.2
    intro a ha
    simp [hno a ha]


/-! ### Date-scoped selection -/

theorem dateLoop_eq (date : String) (l : List SourceSeries) :
    dateLoop date l =
      (l.find? (fun s => (s.Val.get date).isSome)).bind (fun s => s.Val.get date) := by
  induction l with
  | nil => rfl
  | cons s rest ih =>
    unfold dateLoop
    cases h : s.Val.get date with
    | some v => simp [List.find?, h]
    | none => simp [List.find?, h, ih]

theorem dateLoopPb_eq (date : String) (l : List pb.SourceSeries) :
    dateLoopPb date l =
      match l.find? (fun s => (s.Val.get date).isSome) with
      | some s =>
        match s.Val.get date with
        | some v => (some (pointStatOf s date v), some (metadataOf s))
        | none => (none, none)
      | none => (none, none) := by
  induction l with
  | nil => rfl
  | cons s rest ih =>
    unfold dateLoopPb
    cases h : s.Val.get date with
    | some v => simp [List.find?, h]
    | none => simp [List.find?, h, ih]

/-- C9. Date-scoped best value: for a non-nil series set and a non-empty date,
both selectors return the value at that date of the first series, in the order
produced by the rank sort, whose date map contains the date; when no series
contains the date, `getValueFromBestSource` returns a NotFound error and
`getValueFromBestSourcePb` returns nil. -/
theorem date_scoped_best_value (sortByRank : List SourceSeries → List SourceSeries)
    (sortSeriesByRank : List pb.SourceSeries → List pb.SourceSeries)
    (in_ : ObsTimeSeries) (inPb : pb.ObsTimeSeries) (date : String)
    (hdate : date ≠ "")
    (hperm : (sortByRank in_.SourceSeries).Perm in_.SourceSeries)
    (hpermPb : (sortSeriesByRank inPb.SourceSeries).Perm inPb.SourceSeries) :
    (∀ s : SourceSeries,
      (sortByRank in_.SourceSeries).find? (fun s => (s.Val.get date).isSome) = some s →
      ∃ v, s.Val.get date = some v ∧
        getValueFromBestSource sortByRank (some in_) date = .ok v) ∧
    ((∀ s ∈ in_.SourceSeries, s.Val.get date = none) →
      getValueFromBestSource sortByRank (some in_) date =
        .error ⟨.NotFound, "No data found for date " ++ date⟩) ∧
    (∀ s : pb.SourceSeries,
      (sortSeriesByRank inPb.SourceSeries).find? (fun s => (s.Val.get date).isSome) = some s →
      ∃ v, s.Val.get date = some v ∧
        getValueFromBestSourcePb sortSeriesByRank (some inPb) date =
          (some (pointStatOf s date v), some (metadataOf s))) ∧
    ((∀ s ∈ inPb.SourceSeries, s.Val.get date = none) →
      getValueFromBestSourcePb sortSeriesByRank (some inPb) date = (none, none)) := by
  refine ⟨?_, ?_, ?_, ?_⟩
  · intro s hs
    have hsome := List.find?_some hs
    cases hv : s.Val.get date with
    | none => simp [hv] at hsome
    | some v =>
      refine ⟨v, rfl, ?_⟩
      simp [getValueFromBestSource, hdate, dateLoop_eq, hs, hv]
  · intro hnone
    have hfind : (sortByRank in_.SourceSeries).find? (fun s => (s.Val.get date).isSome) = none := by
      rw [List.find?_eq_none]
      intro s hs
      simp [hnone s (hperm.mem_iff.1 hs)]
    simp [getValueFromBestSource, hdate, dateLoop_eq, hfind]
  · intro s hs
    have hsome := List.find?_some hs
    cases hv : s.Val.get date with
    | none => simp [hv] at hsome
    | some v =>
      refine ⟨v, rfl, ?_⟩
      simp [getValueFromBestSourcePb, hdate, dateLoopPb_eq, hs, hv]
  · intro hnone
    have hfind :
        (sortSeriesByRank inPb.SourceSeries).find? (fun s => (s.Val.get date).isSome) = none := by
      rw [List.find?_eq_none]
      intro s hs
      simp [hnone s (hpermPb.mem_iff.1 hs)]
    simp [getValueFromBestSourcePb, hdate, dateLoopPb_eq, hfind]

/-- A witness of C9: S1 ranks first and lacks the date 2020, S2 has 2020 = 5;
the value 5 of S2 is returned. -/
theorem date_scoped_best_value_witness :
    ("2020" ≠ "" ∧
      (demoSort [⟨"S2", "u2", "", "", "", "", [("2020", 5)]⟩,
        ⟨"S1", "u1", "", "", "", "", [("2019", 1)]⟩]).Perm
        [⟨"S2", "u2", "", "", "", "", [("2020", 5)]⟩,
          ⟨"S1", "u1", "", "", "", "", [("2019", 1)]⟩] ∧
      (demoSortPb [⟨"S2", "u2", "", "", "", "", [("2020", 5)]⟩,
        ⟨"S1", "u1", "", "", "", "", [("2019", 1)]⟩]).Perm
        [⟨"S2", "u2", "", "", "", "", [("2020", 5)]⟩,
          ⟨"S1", "u1", "", "", "", "", [("2019", 1)]⟩]) ∧
    getValueFromBestSource demoSort
      (some ⟨"geoId/06", [], "",
        [⟨"S2", "u2", "", "", "", "", [("2020", 5)]⟩,
          ⟨"S1", "u1", "", "", "", "", [("2019", 1)]⟩]⟩) "2020" = .ok 5 ∧
    getValueFromBestSourcePb demoSortPb
      (some ⟨[⟨"S2", "u2", "", "", "", "", [("2020", 5)]⟩,
        ⟨"S1", "u1", "", "", "", "", [("2019", 1)]⟩]⟩) "2020" =
      (some ⟨"2020", 5, some ⟨"S2", "", "", "", "", ""⟩⟩,
        some ⟨"S2", "u2", "", "", "", ""⟩) := by
  have h := date_scoped_best_value demoSort demoSortPb
    ⟨"geoId/06", [], "",
      [⟨"S2", "u2", "", "", "", "", [("2020", 5)]⟩,
        ⟨"S1", "u1", "", "", "", "", [("2019", 1)]⟩]⟩
    ⟨[⟨"S2", "u2", "", "", "", "", [("2020", 5)]⟩,
      ⟨"S1", "u1", "", "", "", "", [("2019", 1)]⟩]⟩ "2020" (by decide)
    (List.perm_insertionSort _ _) (List.perm_insertionSort _ _)
  refine ⟨⟨by decide, List.perm_insertionSort _ _, List.perm_insertionSort _ _⟩, ?_, ?_⟩
  · obtain ⟨v, hv, hr⟩ := h.1 ⟨"S2", "u2", "", "", "", "", [("2020", 5)]⟩ (by decide)
    have : v = 5 := by
      have : GoMap.get [("2020", (5 : Float64))] "2020" = some v := hv
      simpa [GoMap.get] using this.symm
    rw [hr, this]
  · obtain ⟨v, hv, hr⟩ := h.2.2.1 ⟨"S2", "u2", "", "", "", "", [("2020", 5)]⟩ (by decide)
    have : v = 5 := by
      have : GoMap.get [("2020", (5 : Float64))] "2020" = some v := hv
      simpa [GoMap.get] using this.symm
    rw [hr, this]
    rfl

/-! ### Latest-date selection -/

theorem gtString_iff (a b : String) : gtString a b = true ↔ b < a := by
  simp [gtString, String.lt_iff_toList_lt]

theorem empty_lt_of_ne (d : String) (h : d ≠ "") : "" < d := by
  rw [String.lt_iff_toList_lt]
  cases hd : d.toList with
  | nil =>
    exfalso
    apply h
    have : d = String.mk d.toList := rfl
    rw [this, hd]
  | cons c cs => exact List.nil_lt_cons c cs

theorem keepLatest_eq {X P : Type} (key : X → String) (out : X → P) (st : String × P)
    (x : X) : keepLatest key out st x = if st.1 < key x then (key x, out x) else st := by
  unfold keepLatest
  by_cases h : st.1 < key x
  · rw [if_pos ((gtString_iff _ _).2 h), if_pos h]
  · rw [if_neg (fun hg => h ((gtString_iff _ _).1 hg)), if_neg h]

theorem foldl_keepLatest {X P : Type} (key : X → String) (out : X → P) (E : List X)
    (st : String × P) :
    st.1 ≤ (E.foldl (keepLatest key out) st).1 ∧
    (∀ x ∈ E, key x ≤ (E.foldl (keepLatest key out) st).1) ∧
    (E.foldl (keepLatest key out) st = st ∨
      (st.1 < (E.foldl (keepLatest key out) st).1 ∧
        ∃ x, E.find? (fun x => decide (key x = (E.foldl (keepLatest key out) st).1)) = some x ∧
          E.foldl (keepLatest key out) st = (key x, out x))) := by
  induction E generalizing st with
  | nil => simp
  | cons e E ih =>
    rw [List.foldl_cons]
    obtain ⟨h1, h2, h3⟩ := ih (keepLatest key out st e)
    rw [keepLatest_eq] at h1 h2 h3 ⊢
    by_cases hgt : st.1 < key e
    · simp only [hgt, if_true] at h1 h2 h3 ⊢
      refine ⟨le_trans (le_of_lt hgt) h1, ?_, ?_⟩
      · intro x hx
        rcases List.mem_cons.1 hx with rfl | hx
        · exact h1
        · exact h2 x hx
      · right
        rcases h3 with h3 | ⟨h3, x, hx, hr⟩
        · refine ⟨by rw [h3]; exact hgt, e, ?_, h3⟩
          rw [h3]
          simp [List.find?]
        · refine ⟨lt_trans hgt h3, x, ?_, hr⟩
          have hne : ¬ key e = (List.foldl (keepLatest key out) (key e, out e) E).1 :=
            fun h => absurd h3 (by rw [← h]; exact lt_irrefl _)
          simp only [List.find?, hne, decide_False]
          exact hx
    · simp only [hgt, if_false] at h1 h2 h3 ⊢
      refine ⟨h1, ?_, ?_⟩
      · intro x hx
        rcases List.mem_cons.1 hx with rfl | hx
        · exact le_trans (not_lt.1 hgt) h1
        · exact h2 x hx
      · rcases h3 with h3 | ⟨h3, x, hx, hr⟩
        · exact Or.inl h3
        · right
          refine ⟨h3, x, ?_, hr⟩
          have hne : ¬ key e = (List.foldl (keepLatest key out) st E).1 :=
            fun h => hgt (by rw [h]; exact h3)
          simp only [List.find?, hne, decide_False]
          exact hx

theorem find_entries_one {σ : Type} (s : σ) (val : GoMap String Float64) (d : String) :
    (val.map (fun e => (s, e))).find? (fun x => decide (x.2.1 = d)) =
      (val.get d).map (fun v => (s, (d, v))) := by
  induction val with
  | nil => rfl
  | cons e rest ih =>
    obtain ⟨k, v⟩ := e
    by_cases h : k = d
    · subst h
      simp [List.find?, GoMap.get]
    · simp only [List.map_cons, List.find?, h, decide_False, GoMap.get, if_false]
      exact ih

theorem find_entriesOf {σ : Type} (val : σ → GoMap String Float64) (ss : List σ) (d : String) :
    (entriesOf val ss).find? (fun x => decide (x.2.1 = d)) =
      (ss.find? (fun s => ((val s).get d).isSome)).bind
        (fun s => ((val s).get d).map (fun v => (s, (d, v)))) := by
  induction ss with
  | nil => rfl
  | cons s rest ih =>
    unfold entriesOf at ih ⊢
    rw [List.flatMap_cons, List.find?_append, find_entries_one, ih]
    cases h : (val s).get d with
    | some v => simp [List.find?, h]
    | none => simp [List.find?, h]

theorem mem_entriesOf {σ : Type} (val : σ → GoMap String Float64) (ss : List σ)
    (s : σ) (hs : s ∈ ss) (d : String) (hd : d ∈ GoMap.keys (val s)) :
    ∃ x ∈ entriesOf val ss, x.2.1 = d := by
  simp only [GoMap.keys, List.mem_map] at hd
  obtain ⟨e, he, rfl⟩ := hd
  refine ⟨(s, e), ?_, rfl⟩
  simp only [entriesOf, List.mem_flatMap, List.mem_map]
  exact ⟨s, hs, e, he, rfl⟩

/-- The result of the latest-date loops over series with some non-empty date. -/
theorem latest_of_entries {σ P : Type} (val : σ → GoMap String Float64)
    (out : σ × String × Float64 → P) (ss : List σ) (p0 : P)
    (hex : ∃ s ∈ ss, ∃ d ∈ GoMap.keys (val s), d ≠ "") :
    ∃ (dmax : String) (s : σ) (v : Float64), dmax ≠ "" ∧
      (∀ s' ∈ ss, ∀ d ∈ GoMap.keys (val s'), d ≤ dmax) ∧
      ss.find? (fun s => ((val s).get dmax).isSome) = some s ∧
      (val s).get dmax = some v ∧
      (entriesOf val ss).foldl (keepLatest (fun x => x.2.1) out) ("", p0) =
        (dmax, out (s, (dmax, v))) := by
  obtain ⟨h1, h2, h3⟩ := foldl_keepLatest (fun x : σ × String × Float64 => x.2.1) out
    (entriesOf val ss) ("", p0)
  obtain ⟨s0, hs0, d0, hd0, hne0⟩ := hex
  obtain ⟨x0, hx0, hx0d⟩ := mem_entriesOf val ss s0 hs0 d0 hd0
  have hpos : "" < ((entriesOf val ss).foldl (keepLatest (fun x => x.2.1) out) ("", p0)).1 := by
    have := h2 x0 hx0
    simp only [hx0d] at this
    exact lt_of_lt_of_le (empty_lt_of_ne d0 hne0) this
  rcases h3 with h3 | ⟨_, x, hx, hr⟩
  · rw [h3] at hpos
    exact absurd hpos (lt_irrefl _)
  · have hkey : x.2.1 =
        ((entriesOf val ss).foldl (keepLatest (fun x => x.2.1) out) ("", p0)).1 := by
      rw [hr]
    rw [← hkey] at hx hpos
    rw [find_entriesOf] at hx
    cases hf : ss.find? (fun s => ((val s).get x.2.1).isSome) with
    | none => simp [hf] at hx
    | some s =>
      rw [hf] at hx
      cases hv : (val s).get x.2.1 with
      | none => simp [hv] at hx
      | some v =>
        simp only [hv, Option.bind, Option.map, Option.some.injEq] at hx
        refine ⟨x.2.1, s, v, fun h => absurd hpos (by rw [h]; exact lt_irrefl _), ?_, hf, hv, ?_⟩
        · intro s' hs' d hd
          obtain ⟨y, hy, hyd⟩ := mem_entriesOf val ss s' hs' d hd
          have := h2 y hy
          rw [← hkey] at this
          simpa [hyd] using this
        · rw [hr, ← hx]

theorem keepLatest_comm {X P : Type} (key : X → String) (out : X → P) (z : String × P)
    (x y : X) (hne : key x ≠ key y) :
    keepLatest key out (keepLatest key out z x) y =
      keepLatest key out (keepLatest key out z y) x := by
  simp only [keepLatest_eq]
  by_cases h1 : z.1 < key x
  · by_cases h2 : key x < key y
    · have h3 : z.1 < key y := lt_trans h1 h2
      have h4 : ¬ key y < key x := lt_asymm h2
      simp [h1, h2, h3, h4]
    · have h4 : key y < key x := lt_of_le_of_ne (not_lt.1 h2) (Ne.symm hne)
      by_cases h3 : z.1 < key y
      · simp [h1, h2, h3, h4]
      · simp [h1, h2, h3]
  · by_cases h3 : z.1 < key y
    · have h4 : ¬ key y < key x := fun h => h1 (lt_trans h3 h)
      simp [h1, h3, h4]
    · simp [h1, h3]

theorem foldl_keepLatest_perm {X P : Type} (key : X → String) (out : X → P)
    (l l' : List X) (hp : l.Perm l') (hnd : (l.map key).Nodup) (st : String × P) :
    l.foldl (keepLatest key out) st = l'.foldl (keepLatest key out) st := by
  apply List.Perm.foldl_eq' hp
  intro x hx y hy z
  by_cases h : key x = key y
  · have : x = y := List.inj_on_of_nodup_map hnd hx hy h
    rw [this]
  · exact keepLatest_comm key out z x y h

theorem latestLoop_eq_entries (ss : List SourceSeries) (st : String × Float64) :
    ss.foldl (fun st series => series.Val.foldl latestStep st) st =
      (entriesOf (fun s : SourceSeries => s.Val) ss).foldl
        (keepLatest (fun x => x.2.1) (fun x => x.2.2)) st := by
  induction ss generalizing st with
  | nil => rfl
  | cons s rest ih =>
    unfold entriesOf at ih ⊢
    rw [List.foldl_cons, List.flatMap_cons, List.foldl_append, List.foldl_map, ih]
    rfl

theorem latestLoopPb_eq_entries (ss : List pb.SourceSeries)
    (st : String × Option pb.PointStat × Option pb.StatMetadata) :
    ss.foldl (fun st series => series.Val.foldl (latestStepPb series) st) st =
      (entriesOf (fun s : pb.SourceSeries => s.Val) ss).foldl
        (keepLatest (fun x => x.2.1)
          (fun x => (some (pointStatOf x.1 x.2.1 x.2.2), some (metadataOf x.1)))) st := by
  induction ss generalizing st with
  | nil => rfl
  | cons s rest ih =>
    unfold entriesOf at ih ⊢
    rw [List.foldl_cons, List.flatMap_cons, List.foldl_append, List.foldl_map, ih]
    rfl

theorem latestLoop_sameUpToOrder (ss ss' : List SourceSeries)
    (h : List.Forall₂ SameUpToOrder ss ss') (st : String × Float64) :
    ss.foldl (fun st series => series.Val.foldl latestStep st) st =
      ss'.foldl (fun st series => series.Val.foldl latestStep st) st := by
  induction h generalizing st with
  | nil => rfl
  | @cons a b l l' hab _ ih =>
    rw [List.foldl_cons, List.foldl_cons, ← ih]
    congr 1
    exact foldl_keepLatest_perm Prod.fst Prod.snd a.Val b.Val hab.1 hab.2.1 st

theorem latestLoopPb_sameUpToOrder (ss ss' : List pb.SourceSeries)
    (h : List.Forall₂ SameUpToOrderPb ss ss')
    (st : String × Option pb.PointStat × Option pb.StatMetadata) :
    ss.foldl (fun st series => series.Val.foldl (latestStepPb series) st) st =
      ss'.foldl (fun st series => series.Val.foldl (latestStepPb series) st) st := by
  induction h generalizing st with
  | nil => rfl
  | @cons a b l l' hab _ ih =>
    rw [List.foldl_cons, List.foldl_cons, ← ih]
    congr 1
    have hstep : latestStepPb b = latestStepPb a := by
      funext st e
      have hb := hab.2.2
      unfold latestStepPb pointStatOf metadataOf
      rw [hb]
    rw [hstep]
    exact foldl_keepLatest_perm Prod.fst
      (fun e => (some (pointStatOf a e.1 e.2), some (metadataOf a))) a.Val b.Val
      hab.1 hab.2.1 st

theorem getValueFromBestSource_latest (sortByRank : List SourceSeries → List SourceSeries)
    (in_ : ObsTimeSeries) :
    getValueFromBestSource sortByRank (some in_) "" =
      if (latestLoop (sortByRank in_.SourceSeries)).1 = "" then
        .error ⟨.NotFound, "No stat data found for " ++ in_.PlaceDcid⟩
      else .ok (latestLoop (sortByRank in_.SourceSeries)).2 := by
  simp [getValueFromBestSource]

theorem getValueFromBestSourcePb_latest
    (sortSeriesByRank : List pb.SourceSeries → List pb.SourceSeries)
    (inPb : pb.ObsTimeSeries) :
    getValueFromBestSourcePb sortSeriesByRank (some inPb) "" =
      if (latestLoopPb (sortSeriesByRank inPb.SourceSeries)).1 = "" then (none, none)
      else (latestLoopPb (sortSeriesByRank inPb.SourceSeries)).2 := by
  simp [getValueFromBestSourcePb]

/-- C10, as stated, fails: the only date of the only series is the empty
string; some series has a date, yet both selectors report that nothing was
found. -/
theorem latest_date_empty_key :
    "" ∈ GoMap.keys ([("", 7)] : GoMap String Float64) ∧
    getValueFromBestSourcePb demoSortPb
      (some ⟨[⟨"S1", "u1", "", "", "", "", [("", 7)]⟩]⟩) "" = (none, none) ∧
    getValueFromBestSource demoSort
      (some ⟨"geoId/06", [], "", [⟨"S1", "u1", "", "", "", "", [("", 7)]⟩]⟩) "" =
      .error ⟨.NotFound, "No stat data found for geoId/06"⟩ := by
  refine ⟨by decide, by decide, ?_⟩
  rw [getValueFromBestSource_latest]
  rfl

/-- C10, amended. Latest-date best value: for a non-nil series set in which
some series has a non-empty date, both selectors, called with an empty date,
return the value at the greatest date string occurring in any source series,
taken from the first series, in the order produced by the rank sort, whose date
map contains that date; the result is the same for every iteration order of the
date maps of the series. -/
theorem latest_date_best_value (sortByRank : List SourceSeries → List SourceSeries)
    (sortSeriesByRank : List pb.SourceSeries → List pb.SourceSeries)
    (in_ : ObsTimeSeries) (inPb : pb.ObsTimeSeries)
    (hperm : (sortByRank in_.SourceSeries).Perm in_.SourceSeries)
    (hpermPb : (sortSeriesByRank inPb.SourceSeries).Perm inPb.SourceSeries)
    (hex : ∃ s ∈ in_.SourceSeries, ∃ d ∈ GoMap.keys s.Val, d ≠ "")
    (hexPb : ∃ s ∈ inPb.SourceSeries, ∃ d ∈ GoMap.keys s.Val, d ≠ "") :
    (∃ (dmax : String) (s : SourceSeries) (v : Float64), dmax ≠ "" ∧
      (∀ s' ∈ in_.SourceSeries, ∀ d ∈ GoMap.keys s'.Val, d ≤ dmax) ∧
      (sortByRank in_.SourceSeries).find? (fun s => (s.Val.get dmax).isSome) = some s ∧
      s.Val.get dmax = some v ∧
      getValueFromBestSource sortByRank (some in_) "" = .ok v) ∧
    (∃ (dmax : String) (s : pb.SourceSeries) (v : Float64), dmax ≠ "" ∧
      (∀ s' ∈ inPb.SourceSeries, ∀ d ∈ GoMap.keys s'.Val, d ≤ dmax) ∧
      (sortSeriesByRank inPb.SourceSeries).find? (fun s => (s.Val.get dmax).isSome) = some s ∧
      s.Val.get dmax = some v ∧
      getValueFromBestSourcePb sortSeriesByRank (some inPb) "" =
        (some (pointStatOf s dmax v), some (metadataOf s))) ∧
    (∀ in2 : ObsTimeSeries, in2.PlaceDcid = in_.PlaceDcid →
      List.Forall₂ SameUpToOrder (sortByRank in_.SourceSeries)
        (sortByRank in2.SourceSeries) →
      getValueFromBestSource sortByRank (some in2) "" =
        getValueFromBestSource sortByRank (some in_) "") ∧
    (∀ in2 : pb.ObsTimeSeries,
      List.Forall₂ SameUpToOrderPb (sortSeriesByRank inPb.SourceSeries)
        (sortSeriesByRank in2.SourceSeries) →
      getValueFromBestSourcePb sortSeriesByRank (some in2) "" =
        getValueFromBestSourcePb sortSeriesByRank (some inPb) "") := by
  refine ⟨?_, ?_, ?_, ?_⟩
  · have hex' : ∃ s ∈ sortByRank in_.SourceSeries, ∃ d ∈ GoMap.keys s.Val, d ≠ "" := by
      obtain ⟨s, hs, d, hd, hne⟩ := hex
      exact ⟨s, hperm.mem_iff.2 hs, d, hd, hne⟩
    obtain ⟨dmax, s, v, hne, hmax, hfind, hget, hfold⟩ :=
      latest_of_entries (fun s : SourceSeries => s.Val) (fun x => x.2.2)
        (sortByRank in_.SourceSeries) 0 hex'
    refine ⟨dmax, s, v, hne, ?_, hfind, hget, ?_⟩
    · intro s' hs'
      exact hmax s' (hperm.mem_iff.2 hs')
    · rw [getValueFromBestSource_latest]
      unfold latestLoop
      rw [latestLoop_eq_entries, hfold]
      simp [hne]
  · have hex' : ∃ s ∈ sortSeriesByRank inPb.SourceSeries, ∃ d ∈ GoMap.keys s.Val, d ≠ "" := by
      obtain ⟨s, hs, d, hd, hne⟩ := hexPb
      exact ⟨s, hpermPb.mem_iff.2 hs, d, hd, hne⟩
    obtain ⟨dmax, s, v, hne, hmax, hfind, hget, hfold⟩ :=
      latest_of_entries (fun s : pb.SourceSeries => s.Val)
        (fun x => (some (pointStatOf x.1 x.2.1 x.2.2), some (metadataOf x.1)))
        (sortSeriesByRank inPb.SourceSeries) (none, none) hex'
    refine ⟨dmax, s, v, hne, ?_, hfind, hget, ?_⟩
    · intro s' hs'
      exact hmax s' (hpermPb.mem_iff.2 hs')
    · rw [getValueFromBestSourcePb_latest]
      unfold latestLoopPb
      rw [latestLoopPb_eq_entries, hfold]
      simp [hne]
  · intro in2 hplace hsame
    rw [getValueFromBestSource_latest, getValueFromBestSource_latest, hplace]
    unfold latestLoop
    rw [latestLoop_sameUpToOrder _ _ hsame]
  · intro in2 hsame
    rw [getValueFromBestSourcePb_latest, getValueFromBestSourcePb_latest]
    unfold latestLoopPb
    rw [latestLoopPb_sameUpToOrder _ _ hsame]

/-- A witness of C10, amended: S1 ranks first and has 2019 only, S2 has 2020 = 2;
the value 2 at 2020 is returned; when both have 2020, the value of S1 is. -/
theorem latest_date_best_value_witness :
    ((demoSort demoSeries.SourceSeries).Perm demoSeries.SourceSeries ∧
      (demoSortPb demoSeriesPb.SourceSeries).Perm demoSeriesPb.SourceSeries ∧
      (∃ s ∈ demoSeries.SourceSeries, ∃ d ∈ GoMap.keys s.Val, d ≠ "") ∧
      (∃ s ∈ demoSeriesPb.SourceSeries, ∃ d ∈ GoMap.keys s.Val, d ≠ "")) ∧
    ((∃ (dmax : String) (s : SourceSeries) (v : Float64), dmax ≠ "" ∧
      (∀ s' ∈ demoSeries.SourceSeries, ∀ d ∈ GoMap.keys s'.Val, d ≤ dmax) ∧
      (demoSort demoSeries.SourceSeries).find? (fun s => (s.Val.get dmax).isSome) = some s ∧
      s.Val.get dmax = some v ∧
      getValueFromBestSource demoSort (some demoSeries) "" = .ok v) ∧
    (∃ (dmax : String) (s : pb.SourceSeries) (v : Float64), dmax ≠ "" ∧
      (∀ s' ∈ demoSeriesPb.SourceSeries, ∀ d ∈ GoMap.keys s'.Val, d ≤ dmax) ∧
      (demoSortPb demoSeriesPb.SourceSeries).find? (fun s => (s.Val.get dmax).isSome) =
        some s ∧
      s.Val.get dmax = some v ∧
      getValueFromBestSourcePb demoSortPb (some demoSeriesPb) "" =
        (some (pointStatOf s dmax v), some (metadataOf s))) ∧
    (∀ in2 : ObsTimeSeries, in2.PlaceDcid = demoSeries.PlaceDcid →
      List.Forall₂ SameUpToOrder (demoSort demoSeries.SourceSeries)
        (demoSort in2.SourceSeries) →
      getValueFromBestSource demoSort (some in2) "" =
        getValueFromBestSource demoSort (some demoSeries) "") ∧
    (∀ in2 : pb.ObsTimeSeries,
      List.Forall₂ SameUpToOrderPb (demoSortPb demoSeriesPb.SourceSeries)
        (demoSortPb in2.SourceSeries) →
      getValueFromBestSourcePb demoSortPb (some in2) "" =
        getValueFromBestSourcePb demoSortPb (some demoSeriesPb) "")) ∧
    getValueFromBestSourcePb demoSortPb (some demoSeriesPb) "" =
      (some ⟨"2020", 2, some ⟨"S2", "", "", "", "", ""⟩⟩,
        some ⟨"S2", "u2", "", "", "", ""⟩) ∧
    getValueFromBestSourcePb demoSortPb
      (some ⟨[⟨"S2", "u2", "", "", "", "", [("2020", 2)]⟩,
        ⟨"S1", "u1", "", "", "", "", [("2020", 1)]⟩]⟩) "" =
      (some ⟨"2020", 1, some ⟨"S1", "", "", "", "", ""⟩⟩,
        some ⟨"S1", "u1", "", "", "", ""⟩) :=
  ⟨⟨List.perm_insertionSort _ _, List.perm_insertionSort _ _,
      ⟨⟨"S1", "u1", "", "", "", "", [("2019", 1)]⟩, by decide, "2019", by decide, by decide⟩,
      ⟨⟨"S1", "u1", "", "", "", "", [("2019", 1)]⟩, by decide, "2019", by decide, by decide⟩⟩,
    latest_date_best_value demoSort demoSortPb demoSeries demoSeriesPb
      (List.perm_insertionSort _ _) (List.perm_insertionSort _ _)
      ⟨⟨"S1", "u1", "", "", "", "", [("2019", 1)]⟩, by decide, "2019", by decide, by decide⟩
      ⟨⟨"S1", "u1", "", "", "", "", [("2019", 1)]⟩, by decide, "2019", by decide, by decide⟩,
    by decide, by decide⟩

/-! ### The documented latest value -/

/-- C11. At the series of the examples the code departs from its doc comment:
S1 is first in sorted order and its latest value is 1 (at 2019), but
`getValueFromBestSource` with an empty date returns 2, the value of S2 at
2020. -/
theorem latest_not_from_top_ranked :
    demoSort demoSeries.SourceSeries =
      [⟨"S1", "u1", "", "", "", "", [("2019", 1)]⟩,
        ⟨"S2", "u2", "", "", "", "", [("2020", 2), ("2019", 9)]⟩] ∧
    latestOfTopRanked (demoSort demoSeries.SourceSeries) = some 1 ∧
    getValueFromBestSource demoSort (some demoSeries) "" = .ok 2 := by
  refine ⟨by decide, by decide, ?_⟩
  rw [getValueFromBestSource_latest]
  rfl

/-! ### The capacity of the channel -/

/-- C17. Two stores both hold the requested key `a`: the tasks send two
elements on a channel of capacity one, and the call blocks. -/
theorem two_stores_overfill_channel :
    (scheduledTasks demoWorld.BtBatchQuerySize 1 [1, 2] ["a"] []).length = 2 ∧
    drained demoWorld [1, 2] (.RowList ["a"]) demoAction none =
      [⟨"a", some 1, 1⟩, ⟨"a", some 3, 2⟩] ∧
    (drained demoWorld [1, 2] (.RowList ["a"]) demoAction none).length > ["a"].length ∧
    (bigTableReadRowsParallel demoWorld (some 1) [1, 2] (.RowList ["a"])
      demoAction none).outcome = .blocked := by
  refine ⟨by decide, by decide, by decide, by decide⟩

/-! ### The order of the channel -/

theorem pick_eq_findSome (btTables : List Table) (td : GoMap Table (Option ι)) :
    pick btTables td = btTables.findSome? (fun t => td.get t) := by
  induction btTables with
  | nil => rfl
  | cons t rest ih =>
    unfold pick
    cases h : td.get t with
    | some d => simp [List.findSome?, h]
    | none => simp [List.findSome?, h, ih]

theorem bind_pick_eq_findSome (btTables : List Table)
    (tmp : GoMap String (GoMap Table (Option ι))) (token : String) :
    (tmp.get token).bind (pick btTables) = btTables.findSome? (fun t => look tmp token t) := by
  cases h : tmp.get token with
  | none =>
    simp only [Option.bind, look, h]
    induction btTables with
    | nil => rfl
    | cons t rest ih =>
      simp only [List.findSome?]
      exact ih
  | some td =>
    simp only [Option.bind, look, h]
    exact pick_eq_findSome btTables td

theorem get_merge_eq_findSome (btTables : List Table) (elems : List (chanData ι))
    (token : String) :
    (merge btTables elems).get token =
      btTables.findSome? (fun t => lastEmitted elems token t) := by
  rw [get_merge, bind_pick_eq_findSome]
  congr 1
  funext t
  exact look_collect elems token t

theorem lastEmitted_eq_some_iff (elems : List (chanData ι)) (hc : Consistent elems)
    (token : String) (t : Table) (d : Option ι) :
    lastEmitted elems token t = some d ↔
      ∃ e ∈ elems, e.token = token ∧ e.table = t ∧ e.data = d := by
  constructor
  · exact lastEmitted_some elems token t d
  · rintro ⟨e, he, ht, htab, hd⟩
    cases hl : lastEmitted elems token t with
    | none => exact absurd htab (lastEmitted_none elems token t hl e he ht)
    | some d' =>
      obtain ⟨e', he', ht', htab', hd'⟩ := lastEmitted_some elems token t d' hl
      have := hc e' he' e he (by rw [ht', ht]) (by rw [htab', htab])
      rw [← hd', this, hd]

theorem consistent_of_perm (elems elems' : List (chanData ι)) (hp : elems.Perm elems')
    (hc : Consistent elems) : Consistent elems' := by
  intro e1 h1 e2 h2
  exact hc e1 (hp.mem_iff.2 h1) e2 (hp.mem_iff.2 h2)

theorem lastEmitted_perm (elems elems' : List (chanData ι)) (hp : elems.Perm elems')
    (hc : Consistent elems) (token : String) (t : Table) :
    lastEmitted elems token t = lastEmitted elems' token t := by
  have hc' := consistent_of_perm elems elems' hp hc
  cases h : lastEmitted elems token t with
  | some d =>
    obtain ⟨e, he, h1, h2, h3⟩ := (lastEmitted_eq_some_iff elems hc token t d).1 h
    exact ((lastEmitted_eq_some_iff elems' hc' token t d).2
      ⟨e, hp.mem_iff.1 he, h1, h2, h3⟩).symm
  | none =>
    cases h' : lastEmitted elems' token t with
    | none => rfl
    | some d =>
      obtain ⟨e, he, h1, h2, h3⟩ := (lastEmitted_eq_some_iff elems' hc' token t d).1 h'
      have := (lastEmitted_eq_some_iff elems hc token t d).2 ⟨e, hp.mem_iff.2 he, h1, h2, h3⟩
      rw [h] at this
      exact absurd this (by simp)

/-- C15, as stated, fails: store 0 sent two values for token T; the two orders
of arrival give different results, the value that arrived last. -/
theorem merge_depends_on_arrival :
    ([⟨"T", some 1, 0⟩, ⟨"T", some 2, 0⟩] : List (chanData Nat)).Perm
      [⟨"T", some 2, 0⟩, ⟨"T", some 1, 0⟩] ∧
    (merge [0] ([⟨"T", some 1, 0⟩, ⟨"T", some 2, 0⟩] : List (chanData Nat))).get "T" =
      some (some 2) ∧
    (merge [0] ([⟨"T", some 2, 0⟩, ⟨"T", some 1, 0⟩] : List (chanData Nat))).get "T" =
      some (some 1) := by
  refine ⟨List.Perm.swap _ _ _, by decide, by decide⟩

/-- C15, amended. When no store sent two different values for one token, the
result map of the reduction pass is the same for every order of arrival of the
elements: every token has the same lookup, and the keys are the same tokens,
each once. -/
theorem merge_perm (btTables : List Table) (elems elems' : List (chanData ι))
    (hp : elems.Perm elems') (hc : Consistent elems) :
    (∀ token : String, (merge btTables elems).get token = (merge btTables elems').get token) ∧
    (∀ token : String,
      token ∈ (merge btTables elems).keys ↔ token ∈ (merge btTables elems').keys) ∧
    (merge btTables elems).keys.Nodup ∧ (merge btTables elems').keys.Nodup := by
  have hget : ∀ token : String,
      (merge btTables elems).get token = (merge btTables elems').get token := by
    intro token
    rw [get_merge_eq_findSome, get_merge_eq_findSome]
    congr 1
    funext t
    exact lastEmitted_perm elems elems' hp hc token t
  refine ⟨hget, ?_, nodup_keys_merge _ _, nodup_keys_merge _ _⟩
  intro token
  rw [← not_iff_not, ← GoMap.get_eq_none_iff, ← GoMap.get_eq_none_iff, hget]

/-- A witness of C15, amended: stores 2 and 0 sent token T, in either order of
arrival the value of store 0 is the result. -/
theorem merge_perm_witness :
    (([⟨"T", some 20, 2⟩, ⟨"T", some 10, 0⟩] : List (chanData Nat)).Perm
        [⟨"T", some 10, 0⟩, ⟨"T", some 20, 2⟩] ∧
      Consistent ([⟨"T", some 20, 2⟩, ⟨"T", some 10, 0⟩] : List (chanData Nat))) ∧
    ((∀ token : String,
      (merge [0, 1, 2] ([⟨"T", some 20, 2⟩, ⟨"T", some 10, 0⟩] : List (chanData Nat))).get
          token =
        (merge [0, 1, 2] ([⟨"T", some 10, 0⟩, ⟨"T", some 20, 2⟩] : List (chanData Nat))).get
          token) ∧
    (∀ token : String,
      token ∈ (merge [0, 1, 2]
          ([⟨"T", some 20, 2⟩, ⟨"T", some 10, 0⟩] : List (chanData Nat))).keys ↔
        token ∈ (merge [0, 1, 2]
          ([⟨"T", some 10, 0⟩, ⟨"T", some 20, 2⟩] : List (chanData Nat))).keys) ∧
    (merge [0, 1, 2] ([⟨"T", some 20, 2⟩, ⟨"T", some 10, 0⟩] : List (chanData Nat))).keys.Nodup ∧
    (merge [0, 1, 2]
      ([⟨"T", some 10, 0⟩, ⟨"T", some 20, 2⟩] : List (chanData Nat))).keys.Nodup) :=
  ⟨⟨List.Perm.swap _ _ _, by
      intro e1 h1 e2 h2 _ htab
      simp only [List.mem_cons, List.mem_singleton, List.not_mem_nil, or_false] at h1 h2
      rcases h1 with rfl | rfl <;> rcases h2 with rfl | rfl <;> simp_all⟩,
    merge_perm [0, 1, 2] _ _ (List.Perm.swap _ _ _) (by
      intro e1 h1 e2 h2 _ htab
      simp only [List.mem_cons, List.mem_singleton, List.not_mem_nil, or_false] at h1 h2
      rcases h1 with rfl | rfl <;> rcases h2 with rfl | rfl <;> simp_all)⟩

/-! ### The winner and its provenance -/

theorem mem_keys_of_get {κ ν : Type} [DecidableEq κ] (m : GoMap κ ν) (k : κ) (v : ν)
    (h : m.get k = some v) : k ∈ m.keys := by
  by_contra hc
  rw [(GoMap.get_eq_none_iff m k).2 hc] at h
  simp at h

/-- The result of the latest-date loops: the initial state, or the entry of the
greatest date in the first series that has it. -/
theorem latest_entries_cases {σ P : Type} (val : σ → GoMap String Float64)
    (out : σ × String × Float64 → P) (ss : List σ) (p0 : P) :
    ((entriesOf val ss).foldl (keepLatest (fun x => x.2.1) out) ("", p0) = ("", p0) ∧
      ∀ s' ∈ ss, ∀ d ∈ GoMap.keys (val s'), d = "") ∨
    ∃ (dmax : String) (s : σ) (v : Float64), dmax ≠ "" ∧
      (∀ s' ∈ ss, ∀ d ∈ GoMap.keys (val s'), d ≤ dmax) ∧
      ss.find? (fun s => ((val s).get dmax).isSome) = some s ∧
      (val s).get dmax = some v ∧
      (entriesOf val ss).foldl (keepLatest (fun x => x.2.1) out) ("", p0) =
        (dmax, out (s, (dmax, v))) := by
  by_cases hex : ∃ s ∈ ss, ∃ d ∈ GoMap.keys (val s), d ≠ ""
  · exact Or.inr (latest_of_entries val out ss p0 hex)
  · left
    have hall : ∀ s' ∈ ss, ∀ d ∈ GoMap.keys (val s'), d = "" := by
      intro s' hs' d hd
      by_contra hne
      exact hex ⟨s', hs', d, hd, hne⟩
    refine ⟨?_, hall⟩
    obtain ⟨_, _, h3⟩ := foldl_keepLatest (fun x : σ × String × Float64 => x.2.1) out
      (entriesOf val ss) ("", p0)
    rcases h3 with h3 | ⟨hlt, x, hx, hr⟩
    · exact h3
    · exfalso
      have hmem := List.mem_of_find?_eq_some hx
      simp only [entriesOf, List.mem_flatMap, List.mem_map] at hmem
      obtain ⟨s, hs, e, he, hxe⟩ := hmem
      have hk : x.2.1 = "" := by
        rw [← hxe]
        exact hall s hs e.1 (List.mem_map.2 ⟨e, he, rfl⟩)
      rw [hr] at hlt
      simp only [hk] at hlt
      exact lt_irrefl _ hlt

/-- C13. Provenance of the winner: when `getValueFromBestSourcePb` returns a
PointStat, there is a source series of the input whose date map has the
returned date with the returned value, the returned StatMetadata carries the
six provenance fields of that series, and the Metadata of the PointStat carries
its ImportName. -/
theorem provenance_of_winner
    (sortSeriesByRank : List pb.SourceSeries → List pb.SourceSeries)
    (inPb : Option pb.ObsTimeSeries) (date : String) (ps : pb.PointStat)
    (meta : Option pb.StatMetadata)
    (hperm : ∀ l, (sortSeriesByRank l).Perm l)
    (h : getValueFromBestSourcePb sortSeriesByRank inPb date = (some ps, meta)) :
    ∃ (in_ : pb.ObsTimeSeries) (s : pb.SourceSeries), inPb = some in_ ∧
      s ∈ in_.SourceSeries ∧
      meta = some ⟨s.ImportName, s.ProvenanceUrl, s.MeasurementMethod, s.ObservationPeriod,
        s.ScalingFactor, s.Unit⟩ ∧
      (∃ m, ps.Metadata = some m ∧ m.ImportName = s.ImportName) ∧
      ps.Date ∈ GoMap.keys s.Val ∧ s.Val.get ps.Date = some ps.Value ∧
      (date ≠ "" → ps.Date = date) := by
  cases inPb with
  | none => simp [getValueFromBestSourcePb] at h
  | some in_ =>
    by_cases hdate : date = ""
    · subst hdate
      rw [getValueFromBestSourcePb_latest] at h
      unfold latestLoopPb at h
      rw [latestLoopPb_eq_entries] at h
      rcases latest_entries_cases (fun s : pb.SourceSeries => s.Val)
        (fun x => (some (pointStatOf x.1 x.2.1 x.2.2), some (metadataOf x.1)))
        (sortSeriesByRank in_.SourceSeries) (none, none) with ⟨h0, _⟩ | ⟨dmax, s, v, hne, _, hfind, hget, hfold⟩
      · rw [h0] at h
        simp at h
      · rw [hfold] at h
        simp only [hne, if_false, Prod.mk.injEq, Option.some.injEq] at h
        obtain ⟨hps, hmeta⟩ := h
        subst hps
        refine ⟨in_, s, rfl, (hperm _).mem_iff.1 (List.mem_of_find?_eq_some hfind), ?_, ?_, ?_, ?_, ?_⟩
        · rw [← hmeta]; rfl
        · exact ⟨_, rfl, rfl⟩
        · exact mem_keys_of_get s.Val dmax v hget
        · exact hget
        · intro hc; exact absurd rfl hc
    · simp only [getValueFromBestSourcePb, hdate, ne_eq, not_false_eq_true, if_true] at h
      rw [dateLoopPb_eq] at h
      cases hfind : (sortSeriesByRank in_.SourceSeries).find?
          (fun s => (s.Val.get date).isSome) with
      | none => simp [hfind] at h
      | some s =>
        cases hget : s.Val.get date with
        | none => simp [hfind, hget] at h
        | some v =>
          simp only [hfind, hget, Prod.mk.injEq, Option.some.injEq] at h
          obtain ⟨hps, hmeta⟩ := h
          subst hps
          refine ⟨in_, s, rfl, (hperm _).mem_iff.1 (List.mem_of_find?_eq_some hfind),
            ?_, ?_, ?_, ?_, ?_⟩
          · rw [← hmeta]; rfl
          · exact ⟨_, rfl, rfl⟩
          · exact mem_keys_of_get s.Val date v hget
          · exact hget
          · intro _; rfl

/-- A witness of C13: the latest value of the series of the examples comes from
S2 with the provenance of S2. -/
theorem provenance_of_winner_witness :
    ((∀ l, (demoSortPb l).Perm l) ∧
      getValueFromBestSourcePb demoSortPb (some demoSeriesPb) "" =
        (some ⟨"2020", 2, some ⟨"S2", "", "", "", "", ""⟩⟩,
          some ⟨"S2", "u2", "", "", "", ""⟩)) ∧
    ∃ (in_ : pb.ObsTimeSeries) (s : pb.SourceSeries), some demoSeriesPb = some in_ ∧
      s ∈ in_.SourceSeries ∧
      some (pb.StatMetadata.mk "S2" "u2" "" "" "" "") =
        some ⟨s.ImportName, s.ProvenanceUrl, s.MeasurementMethod, s.ObservationPeriod,
          s.ScalingFactor, s.Unit⟩ ∧
      (∃ m, (pb.PointStat.mk "2020" 2 (some ⟨"S2", "", "", "", "", ""⟩)).Metadata = some m ∧
        m.ImportName = s.ImportName) ∧
      (pb.PointStat.mk "2020" 2 (some ⟨"S2", "", "", "", "", ""⟩)).Date ∈ GoMap.keys s.Val ∧
      s.Val.get (pb.PointStat.mk "2020" 2 (some ⟨"S2", "", "", "", "", ""⟩)).Date =
        some (pb.PointStat.mk "2020" 2 (some ⟨"S2", "", "", "", "", ""⟩)).Value ∧
      (("" : String) ≠ "" →
        (pb.PointStat.mk "2020" 2 (some ⟨"S2", "", "", "", "", ""⟩)).Date = "") :=
  ⟨⟨fun l => List.perm_insertionSort _ l, by decide⟩,
    provenance_of_winner demoSortPb (some demoSeriesPb) ""
      ⟨"2020", 2, some ⟨"S2", "", "", "", "", ""⟩⟩ (some ⟨"S2", "u2", "", "", "", ""⟩)
      (fun l => List.perm_insertionSort _ l) (by decide)⟩

/-! ### Not found and faults -/

theorem dateLoop_eq_none_iff (date : String) (l : List SourceSeries) :
    dateLoop date l = none ↔ ∀ s ∈ l, s.Val.get date = none := by
  induction l with
  | nil => simp [dateLoop]
  | cons s rest ih =>
    unfold dateLoop
    cases h : s.Val.get date with
    | some v => simp [h]
    | none => simp [h, ih]

theorem latestLoop_fst_eq_empty_iff (l : List SourceSeries) :
    (latestLoop l).1 = "" ↔ ∀ s ∈ l, ∀ d ∈ GoMap.keys s.Val, d = "" := by
  unfold latestLoop
  rw [latestLoop_eq_entries]
  rcases latest_entries_cases (fun s : SourceSeries => s.Val) (fun x => x.2.2) l 0 with
    ⟨h0, hall⟩ | ⟨dmax, s, v, hne, _, hfind, hget, hfold⟩
  · rw [h0]
    exact ⟨fun _ => hall, fun _ => rfl⟩
  · rw [hfold]
    constructor
    · intro h
      exact absurd h hne
    · intro hall
      exact absurd (hall s (List.mem_of_find?_eq_some hfind) dmax
        (mem_keys_of_get s.Val dmax v hget)) hne

/-- C14, as stated, fails: the only date of the only series is the empty
string; a series has a date, yet `getValueFromBestSource` with an empty date
returns NotFound. -/
theorem not_found_with_a_date :
    (∃ s ∈ [(⟨"S1", "u1", "", "", "", "", [("", 7)]⟩ : SourceSeries)],
      ∃ d, d ∈ GoMap.keys s.Val) ∧
    getValueFromBestSource demoSort
      (some ⟨"geoId/06", [], "", [⟨"S1", "u1", "", "", "", "", [("", 7)]⟩]⟩) "" =
      .error ⟨.NotFound, "No stat data found for geoId/06"⟩ := by
  refine ⟨⟨_, List.mem_singleton.2 rfl, "", by decide⟩, ?_⟩
  rw [getValueFromBestSource_latest]
  rfl

/-- C14, amended. For a non-nil series set `getValueFromBestSource` fails
exactly when no value exists for the request: with a date given, when no
series has that date; with an empty date, when no series has a non-empty date.
The failure always has code NotFound; code Internal is returned for a nil
series set, and only for it. -/
theorem not_found_iff (sortByRank : List SourceSeries → List SourceSeries)
    (in_ : ObsTimeSeries) (date : String)
    (hperm : (sortByRank in_.SourceSeries).Perm in_.SourceSeries) :
    (date ≠ "" →
      ((∃ err, getValueFromBestSource sortByRank (some in_) date = .error err) ↔
        ∀ s ∈ in_.SourceSeries, s.Val.get date = none)) ∧
    (date = "" →
      ((∃ err, getValueFromBestSource sortByRank (some in_) date = .error err) ↔
        ∀ s ∈ in_.SourceSeries, ∀ d ∈ GoMap.keys s.Val, d = "")) ∧
    (∀ err, getValueFromBestSource sortByRank (some in_) date = .error err →
      err.code = .NotFound) ∧
    (∀ (inOpt : Option ObsTimeSeries) (d : String) (err : Status),
      getValueFromBestSource sortByRank inOpt d = .error err →
      err.code = .Internal → inOpt = none) ∧
    (∃ err, getValueFromBestSource sortByRank none date = .error err ∧
      err.code = .Internal) := by
  have hcode : ∀ (x : ObsTimeSeries) (d : String) (err : Status),
      getValueFromBestSource sortByRank (some x) d = .error err → err.code = .NotFound := by
    intro x d err h
    by_cases hd : d = ""
    · subst hd
      rw [getValueFromBestSource_latest] at h
      split at h
      · simp only [Except.error.injEq] at h
        rw [← h]
      · simp at h
    · simp only [getValueFromBestSource, hd, ne_eq, not_false_eq_true, if_true] at h
      split at h
      · simp at h
      · simp only [Except.error.injEq] at h
        rw [← h]
  refine ⟨?_, ?_, hcode in_ date, ?_, ⟨_, rfl, rfl⟩⟩
  · intro hd
    have hmem : (∀ s ∈ sortByRank in_.SourceSeries, s.Val.get date = none) ↔
        ∀ s ∈ in_.SourceSeries, s.Val.get date = none :=
      ⟨fun h s hs => h s (hperm.mem_iff.2 hs), fun h s hs => h s (hperm.mem_iff.1 hs)⟩
    rw [← hmem, ← dateLoop_eq_none_iff]
    simp only [getValueFromBestSource, hd, ne_eq, not_false_eq_true, if_true]
    cases hl : dateLoop date (sortByRank in_.SourceSeries) with
    | none => simp
    | some v => simp
  · intro hd
    subst hd
    have hmem : (∀ s ∈ sortByRank in_.SourceSeries, ∀ d ∈ GoMap.keys s.Val, d = "") ↔
        ∀ s ∈ in_.SourceSeries, ∀ d ∈ GoMap.keys s.Val, d = "" :=
      ⟨fun h s hs => h s (hperm.mem_iff.2 hs), fun h s hs => h s (hperm.mem_iff.1 hs)⟩
    rw [← hmem, ← latestLoop_fst_eq_empty_iff, getValueFromBestSource_latest]
    by_cases hl : (latestLoop (sortByRank in_.SourceSeries)).1 = ""
    · simp [hl]
    · simp [hl]
  · intro inOpt d err h hc
    cases inOpt with
    | none => rfl
    | some x =>
      have := hcode x d err h
      rw [this] at hc
      exact absurd hc (by decide)

/-- A witness of C14, amended: the series of the examples have dates, so the
call with an empty date does not fail. -/
theorem not_found_iff_witness :
    (demoSort demoSeries.SourceSeries).Perm demoSeries.SourceSeries ∧
    (("" : String) ≠ "" →
      ((∃ err, getValueFromBestSource demoSort (some demoSeries) "" = .error err) ↔
        ∀ s ∈ demoSeries.SourceSeries, s.Val.get "" = none)) ∧
    (("" : String) = "" →
      ((∃ err, getValueFromBestSource demoSort (some demoSeries) "" = .error err) ↔
        ∀ s ∈ demoSeries.SourceSeries, ∀ d ∈ GoMap.keys s.Val, d = "")) ∧
    (∀ err, getValueFromBestSource demoSort (some demoSeries) "" = .error err →
      err.code = .NotFound) ∧
    (∀ (inOpt : Option ObsTimeSeries) (d : String) (err : Status),
      getValueFromBestSource demoSort inOpt d = .error err →
      err.code = .Internal → inOpt = none) ∧
    (∃ err, getValueFromBestSource demoSort none "" = .error err ∧
      err.code = .Internal) :=
  ⟨List.perm_insertionSort _ _,
    not_found_iff demoSort demoSeries "" (List.perm_insertionSort _ _)⟩

/-! ### Plain and protobuf selectors -/

theorem dateLoopPb_toPb (date : String) (l : List SourceSeries) :
    (dateLoop date l = none ∧ dateLoopPb date (l.map toPb) = (none, none)) ∨
    ∃ v ps meta, dateLoop date l = some v ∧
      dateLoopPb date (l.map toPb) = (some ps, some meta) ∧ ps.Value = v := by
  induction l with
  | nil => exact Or.inl ⟨rfl, rfl⟩
  | cons s rest ih =>
    cases h : s.Val.get date with
    | some v =>
      right
      have h' : (toPb s).Val.get date = some v := h
      refine ⟨v, pointStatOf (toPb s) date v, metadataOf (toPb s), ?_, ?_, rfl⟩
      · simp [dateLoop, h]
      · simp [dateLoopPb, h']
    | none =>
      have h' : (toPb s).Val.get date = none := h
      simp only [dateLoop, h, List.map_cons, dateLoopPb, h']
      exact ih

theorem foldl_keepLatest_rel {X P Q : Type} (key : X → String) (out : X → P) (out' : X → Q)
    (R : P → Q → Prop) (hR : ∀ x, R (out x) (out' x)) (E : List X)
    (st : String × P) (st' : String × Q) (h1 : st.1 = st'.1) (h2 : R st.2 st'.2) :
    (E.foldl (keepLatest key out) st).1 = (E.foldl (keepLatest key out') st').1 ∧
    R (E.foldl (keepLatest key out) st).2 (E.foldl (keepLatest key out') st').2 := by
  induction E generalizing st st' with
  | nil => exact ⟨h1, h2⟩
  | cons x E ih =>
    rw [List.foldl_cons, List.foldl_cons]
    apply ih
    · unfold keepLatest
      rw [h1]
      split <;> simp [h1]
    · unfold keepLatest
      rw [h1]
      split
      · exact hR x
      · exact h2

theorem entriesOf_toPb (l : List SourceSeries) :
    entriesOf (fun s : pb.SourceSeries => s.Val) (l.map toPb) =
      (entriesOf (fun s : SourceSeries => s.Val) l).map (fun x => (toPb x.1, x.2)) := by
  induction l with
  | nil => rfl
  | cons s rest ih =>
    unfold entriesOf at ih ⊢
    rw [List.map_cons, List.flatMap_cons, List.flatMap_cons, List.map_append, ih]
    congr 1
    simp [toPb, List.map_map]

theorem latestLoopPb_toPb (l : List SourceSeries) :
    (latestLoopPb (l.map toPb)).1 = (latestLoop l).1 ∧
    ((latestLoop l).1 ≠ "" →
      ∃ ps meta, (latestLoopPb (l.map toPb)).2 = (some ps, some meta) ∧
        ps.Value = (latestLoop l).2) := by
  unfold latestLoop latestLoopPb
  rw [latestLoop_eq_entries, latestLoopPb_eq_entries, entriesOf_toPb, List.foldl_map]
  have hrel := foldl_keepLatest_rel (fun x : SourceSeries × String × Float64 => x.2.1)
    (fun x => x.2.2)
    (fun x => (some (pointStatOf (toPb x.1) x.2.1 x.2.2), some (metadataOf (toPb x.1))))
    (fun v q => q = (none, none) ∨ ∃ ps meta, q = (some ps, some meta) ∧ ps.Value = v)
    (fun x => Or.inr ⟨_, _, rfl, rfl⟩)
    (entriesOf (fun s : SourceSeries => s.Val) l) ("", 0) ("", none, none) rfl (Or.inl rfl)
  have hfold : ∀ (st : String × Option pb.PointStat × Option pb.StatMetadata)
      (E : List (SourceSeries × String × Float64)),
      List.foldl (fun x y => keepLatest (fun x : pb.SourceSeries × String × Float64 => x.2.1)
        (fun x => (some (pointStatOf x.1 x.2.1 x.2.2), some (metadataOf x.1))) x
          (toPb y.1, y.2)) st E =
      List.foldl (keepLatest (fun x : SourceSeries × String × Float64 => x.2.1)
        (fun x => (some (pointStatOf (toPb x.1) x.2.1 x.2.2), some (metadataOf (toPb x.1)))))
        st E := by
    intro st E
    rfl
  rw [hfold]
  refine ⟨hrel.1.symm, ?_⟩
  intro hne
  rcases hrel.2 with h0 | h
  · exfalso
    obtain ⟨_, _, h3⟩ := foldl_keepLatest (fun x : SourceSeries × String × Float64 => x.2.1)
      (fun x => (some (pointStatOf (toPb x.1) x.2.1 x.2.2), some (metadataOf (toPb x.1))))
      (entriesOf (fun s : SourceSeries => s.Val) l) ("", none, none)
    rcases h3 with h3 | ⟨_, x, _, hr⟩
    · rw [hrel.1, h3] at hne
      exact hne rfl
    · rw [hr] at h0
      simp at h0
  · exact h

/-- C16. The plain and the protobuf selector agree: for a series set and its
protobuf form, sorted into corresponding orders, `getValueFromBestSource`
returns `v` without error exactly when `getValueFromBestSourcePb` returns a
PointStat with value `v`, and it returns NotFound exactly when
`getValueFromBestSourcePb` returns (nil, nil). -/
theorem selectors_agree (sortByRank : List SourceSeries → List SourceSeries)
    (sortSeriesByRank : List pb.SourceSeries → List pb.SourceSeries)
    (in_ : ObsTimeSeries) (date : String)
    (hsort : sortSeriesByRank (in_.SourceSeries.map toPb) =
      (sortByRank in_.SourceSeries).map toPb) :
    (∀ v : Float64, getValueFromBestSource sortByRank (some in_) date = .ok v ↔
      ∃ ps, (getValueFromBestSourcePb sortSeriesByRank
        (some ⟨in_.SourceSeries.map toPb⟩) date).1 = some ps ∧ ps.Value = v) ∧
    ((∃ err, getValueFromBestSource sortByRank (some in_) date = .error err ∧
        err.code = .NotFound) ↔
      getValueFromBestSourcePb sortSeriesByRank (some ⟨in_.SourceSeries.map toPb⟩) date =
        (none, none)) := by
  by_cases hdate : date = ""
  · subst hdate
    rw [getValueFromBestSource_latest, getValueFromBestSourcePb_latest]
    simp only [hsort]
    obtain ⟨hfst, hval⟩ := latestLoopPb_toPb (sortByRank in_.SourceSeries)
    rw [hfst]
    by_cases hl : (latestLoop (sortByRank in_.SourceSeries)).1 = ""
    · simp only [hl, if_true]
      constructor
      · intro v
        simp
      · simp
    · obtain ⟨ps, meta, hps, hv⟩ := hval hl
      simp only [hl, if_false, hps]
      constructor
      · intro v
        simp only [Except.ok.injEq, Option.some.injEq, exists_eq_left', hv]
      · simp
  · simp only [getValueFromBestSource, getValueFromBestSourcePb, hdate, ne_eq,
      not_false_eq_true, if_true, hsort]
    rcases dateLoopPb_toPb date (sortByRank in_.SourceSeries) with ⟨h1, h2⟩ | ⟨v0, ps, meta, h1, h2, h3⟩
    · rw [h1, h2]
      constructor
      · intro v
        simp
      · simp
    · rw [h1, h2]
      constructor
      · intro v
        simp only [Except.ok.injEq, Option.some.injEq, exists_eq_left', h3]
      · simp

/-- A witness of C16: the series of the examples, with an empty date. -/
theorem selectors_agree_witness :
    demoSortPb (demoSeries.SourceSeries.map toPb) =
      (demoSort demoSeries.SourceSeries).map toPb ∧
    (∀ v : Float64, getValueFromBestSource demoSort (some demoSeries) "" = .ok v ↔
      ∃ ps, (getValueFromBestSourcePb demoSortPb
        (some ⟨demoSeries.SourceSeries.map toPb⟩) "").1 = some ps ∧ ps.Value = v) ∧
    ((∃ err, getValueFromBestSource demoSort (some demoSeries) "" = .error err ∧
        err.code = .NotFound) ↔
      getValueFromBestSourcePb demoSortPb (some ⟨demoSeries.SourceSeries.map toPb⟩) "" =
        (none, none)) :=
  ⟨by decide, selectors_agree demoSort demoSortPb demoSeries "" (by decide)⟩

/-! ### From the requested keys to the result map -/

theorem rowCallback_of_not_fails (w : World) (t : Table)
    (getToken : Option (String → Except Status String))
    (action : String → String → Except Status (Option ι)) (row : Row)
    (ch : List (chanData ι)) (h : ¬ rowFails w getToken action row) :
    rowCallback w t getToken action row ch =
      (true, ch ++ (emitted w getToken action t row).toList) := by
  unfold rowFails at h
  unfold rowCallback emitted
  cases hfam : row.family with
  | nil => simp
  | cons raw rest =>
    simp only [hfam] at h ⊢
    cases hgt : (getToken.getD w.KeyToDcid) row.key with
    | error err => simp [hgt] at h
    | ok token =>
      simp only [hgt] at h ⊢
      cases hud : w.UnzipAndDecode raw with
      | error err => simp [hud] at h
      | ok jsonRaw =>
        simp only [hud] at h ⊢
        cases hact : action token jsonRaw with
        | error err => simp [hact] at h
        | ok elem => simp

theorem emitted_some (w : World) (t : Table)
    (getToken : Option (String → Except Status String))
    (action : String → String → Except Status (Option ι)) (row : Row) (e : chanData ι)
    (h : emitted w getToken action t row = some e) :
    e.table = t ∧ row.family ≠ [] ∧ (getToken.getD w.KeyToDcid) row.key = .ok e.token := by
  unfold emitted at h
  cases hfam : row.family with
  | nil => simp [hfam] at h
  | cons raw rest =>
    simp only [hfam] at h
    cases hgt : (getToken.getD w.KeyToDcid) row.key with
    | error err => simp [hgt] at h
    | ok token =>
      simp only [hgt] at h
      cases hud : w.UnzipAndDecode raw with
      | error err => simp [hud] at h
      | ok jsonRaw =>
        simp only [hud] at h
        cases hact : action token jsonRaw with
        | error err => simp [hact] at h
        | ok elem =>
          simp only [hact, Option.some.injEq] at h
          subst h
          exact ⟨rfl, by simp, rfl⟩

theorem emitted_of_payload (w : World) (t : Table)
    (getToken : Option (String → Except Status String))
    (action : String → String → Except Status (Option ι)) (row : Row)
    (hok : ¬ rowFails w getToken action row) (hpay : row.family ≠ []) :
    ∃ e, emitted w getToken action t row = some e := by
  unfold rowFails at hok
  unfold emitted
  cases hfam : row.family with
  | nil => exact absurd hfam hpay
  | cons raw rest =>
    simp only [hfam] at hok ⊢
    cases hgt : (getToken.getD w.KeyToDcid) row.key with
    | error err => simp [hgt] at hok
    | ok token =>
      simp only [hgt] at hok ⊢
      cases hud : w.UnzipAndDecode raw with
      | error err => simp [hud] at hok
      | ok jsonRaw =>
        simp only [hud] at hok ⊢
        cases hact : action token jsonRaw with
        | error err => simp [hact] at hok
        | ok elem => exact ⟨_, rfl⟩

theorem ReadRows_of_not_fails (w : World) (t : Table)
    (getToken : Option (String → Except Status String))
    (action : String → String → Except Status (Option ι)) (scanErr : Option Status)
    (rows : List Row) (hok : ∀ row ∈ rows, ¬ rowFails w getToken action row)
    (ch : List (chanData ι)) :
    ReadRows rows scanErr (rowCallback w t getToken action) ch =
      (scanErr, ch ++ rows.filterMap (emitted w getToken action t)) := by
  induction rows generalizing ch with
  | nil => simp [ReadRows]
  | cons r rest ih =>
    unfold ReadRows
    rw [rowCallback_of_not_fails w t getToken action r ch (hok r (List.mem_cons_self _ _))]
    simp only
    rw [ih (fun row h => hok row (List.mem_cons_of_mem _ h))]
    cases he : emitted w getToken action t r with
    | none => simp [List.filterMap_cons, he]
    | some e => simp [List.filterMap_cons, he]

theorem foldl_tasks_of_not_fails (w : World)
    (getToken : Option (String → Except Status String))
    (action : String → String → Except Status (Option ι))
    (tasks : List (Table × RowSet)) (st : Option Status × List (chanData ι))
    (hok : ∀ task ∈ tasks, ∀ row ∈ (w.content task.1).filter (fun r => task.2.selects r.key),
      ¬ rowFails w getToken action row) :
    (tasks.foldl
      (fun st task =>
        match readRowFn w task.1 task.2 getToken action st.2 with
        | (err, ch) => (st.1.orElse (fun _ => err), ch)) st).2 =
      st.2 ++ tasks.flatMap (fun task =>
        ((w.content task.1).filter (fun r => task.2.selects r.key)).filterMap
          (emitted w getToken action task.1)) := by
  induction tasks generalizing st with
  | nil => simp
  | cons task rest ih =>
    rw [List.foldl_cons, ih _ (fun task' h => hok task' (List.mem_cons_of_mem _ h)),
      readRowFn_eq, ReadRows_of_not_fails w task.1 getToken action _ _
        (hok task (List.mem_cons_self _ _))]
    simp [List.flatMap_cons]

theorem mem_drained_iff (w : World) (btTables : List Table) (rowList : List String)
    (action : String → String → Except Status (Option ι))
    (getToken : Option (String → Except Status String))
    (hsel : ∀ key : String, key ∈ rowList ↔
      ∃ part ∈ rowSetParts w.BtBatchQuerySize rowList.length rowList [],
        part.selects key = true)
    (hok : ∀ t ∈ btTables, ∀ row ∈ w.content t, row.key ∈ rowList →
      ¬ rowFails w getToken action row) (e : chanData ι) :
    e ∈ drained w btTables (.RowList rowList) action getToken ↔
      ∃ t ∈ btTables, ∃ row ∈ w.content t, row.key ∈ rowList ∧
        emitted w getToken action t row = some e := by
  have hok' : ∀ task ∈ scheduledTasks w.BtBatchQuerySize rowList.length btTables rowList [],
      ∀ row ∈ (w.content task.1).filter (fun r => task.2.selects r.key),
      ¬ rowFails w (some (getToken.getD w.KeyToDcid)) action row := by
    intro task htask row hrow
    simp only [scheduledTasks, List.mem_flatMap, List.mem_map] at htask
    obtain ⟨part, hpart, t, ht, rfl⟩ := htask
    obtain ⟨hrow1, hsel'⟩ := List.mem_filter.1 hrow
    exact hok t ht row hrow1 ((hsel row.key).2 ⟨part, hpart, hsel'⟩)
  have hdr : drained w btTables (.RowList rowList) action getToken =
      (scheduledTasks w.BtBatchQuerySize rowList.length btTables rowList []).flatMap
        (fun task => ((w.content task.1).filter (fun r => task.2.selects r.key)).filterMap
          (emitted w (some (getToken.getD w.KeyToDcid)) action task.1)) := by
    simp only [drained, runTasks]
    rw [foldl_tasks_of_not_fails w _ action _ _ hok']
    simp
  rw [hdr]
  constructor
  · intro he
    obtain ⟨task, htask, he⟩ := List.mem_flatMap.1 he
    obtain ⟨row, hrow, hemit⟩ := List.mem_filterMap.1 he
    simp only [scheduledTasks, List.mem_flatMap, List.mem_map] at htask
    obtain ⟨part, hpart, t, ht, rfl⟩ := htask
    obtain ⟨hrow1, hsel'⟩ := List.mem_filter.1 hrow
    exact ⟨t, ht, row, hrow1, (hsel row.key).2 ⟨part, hpart, hsel'⟩, hemit⟩
  · rintro ⟨t, ht, row, hrow, hkey, hemit⟩
    obtain ⟨part, hpart, hsel'⟩ := (hsel row.key).1 hkey
    refine List.mem_flatMap.2 ⟨(t, part), ?_, ?_⟩
    · simp only [scheduledTasks, List.mem_flatMap, List.mem_map]
      exact ⟨part, hpart, t, ht, rfl⟩
    · exact List.mem_filterMap.2 ⟨row, List.mem_filter.2 ⟨hrow, hsel'⟩, hemit⟩

theorem result_of_success (w : World) (btTable : Option Table) (btTables : List Table)
    (rowList : List String) (action : String → String → Except Status (Option ι))
    (getToken : Option (String → Except Status String))
    (result : GoMap String (Option ι)) (hne : rowList ≠ [])
    (h : (bigTableReadRowsParallel w btTable btTables (.RowList rowList) action
      getToken).outcome = .returned (some result) none) :
    0 < w.BtBatchQuerySize ∧
    result = merge btTables (drained w btTables (.RowList rowList) action getToken) := by
  have hlen : rowList.length ≠ 0 := fun h => hne (List.length_eq_zero.1 h)
  cases btTable with
  | none => simp [bigTableReadRowsParallel] at h
  | some t =>
    simp only [bigTableReadRowsParallel, Option.isNone_some, readBody, hlen, if_false,
      Bool.false_eq_true] at h
    by_cases hB : w.BtBatchQuerySize = 0
    · simp [hB] at h
    · refine ⟨Nat.pos_of_ne_zero hB, ?_⟩
      simp only [hB, if_false] at h
      simp only [drained]
      cases hrt : runTasks w (some (getToken.getD w.KeyToDcid)) action
        (scheduledTasks w.BtBatchQuerySize rowList.length btTables rowList []) with
      | mk err elems =>
        rw [hrt] at h
        simp only at h
        by_cases hfull : elems.length > rowList.length
        · simp [hfull] at h
        · simp only [hfull, if_false] at h
          cases err with
          | some e => simp at h
          | none =>
            simp only [Outcome.returned.injEq, Option.some.injEq, and_true] at h
            exact h.symm

/-- C2, amended. For every successful call with a non-empty key list in which
no scanned row fails, every key of the returned map occurs in it exactly once,
and the keys are exactly the tokens derived by `getToken` from the requested
row keys for which some store of `btTables` holds a row with a payload; a token
for which no store holds such a row is not a key: its lookup gives no value. -/
theorem result_keys (w : World) (btTable : Option Table) (btTables : List Table)
    (rowList : List String) (action : String → String → Except Status (Option ι))
    (getToken : Option (String → Except Status String))
    (result : GoMap String (Option ι)) (hne : rowList ≠ [])
    (h : (bigTableReadRowsParallel w btTable btTables (.RowList rowList) action
      getToken).outcome = .returned (some result) none)
    (hok : ∀ t ∈ btTables, ∀ row ∈ w.content t, row.key ∈ rowList →
      ¬ rowFails w getToken action row) :
    result.keys.Nodup ∧
    (∀ token : String, token ∈ result.keys ↔
      ∃ key ∈ rowList, ∃ t ∈ btTables, ∃ row ∈ w.content t,
        row.key = key ∧ row.family ≠ [] ∧ (getToken.getD w.KeyToDcid) key = .ok token) ∧
    (∀ token : String,
      (¬ ∃ key ∈ rowList, ∃ t ∈ btTables, ∃ row ∈ w.content t,
        row.key = key ∧ row.family ≠ [] ∧ (getToken.getD w.KeyToDcid) key = .ok token) →
      result.get token = none) := by
  obtain ⟨hB, hres⟩ := result_of_success w btTable btTables rowList action getToken result hne h
  have hparts : rowSetParts w.BtBatchQuerySize rowList.length rowList [] =
      ((List.range (rowList.length / w.BtBatchQuerySize + 1)).map
        (fun i => slice rowList (i * w.BtBatchQuerySize)
          (min ((i + 1) * w.BtBatchQuerySize) rowList.length))).map RowSet.RowList := by
    have hpos : rowList.length > 0 := List.length_pos.2 hne
    rw [rowSetParts, List.map_map]
    apply List.map_congr_left
    intro i _
    simp [rowSetPart, right_eq_min, hpos]
  have hflat := (isChunking_windows rowList w.BtBatchQuerySize hB).2.2
  have hsel : ∀ key : String, key ∈ rowList ↔
      ∃ part ∈ rowSetParts w.BtBatchQuerySize rowList.length rowList [],
        part.selects key = true := by
    intro key
    rw [hparts]
    constructor
    · intro hk
      rw [← hflat, List.mem_flatten] at hk
      obtain ⟨ks, hks, hmem⟩ := hk
      exact ⟨.RowList ks, List.mem_map.2 ⟨ks, hks, rfl⟩, by simp [RowSet.selects, hmem]⟩
    · rintro ⟨part, hpart, hs⟩
      obtain ⟨ks, hks, rfl⟩ := List.mem_map.1 hpart
      simp only [RowSet.selects, decide_eq_true_eq] at hs
      rw [← hflat, List.mem_flatten]
      exact ⟨ks, hks, hs⟩
  have hkeys : ∀ token : String, token ∈ result.keys ↔
      ∃ key ∈ rowList, ∃ t ∈ btTables, ∃ row ∈ w.content t,
        row.key = key ∧ row.family ≠ [] ∧ (getToken.getD w.KeyToDcid) key = .ok token := by
    intro token
    rw [hres, mem_keys_merge_iff]
    constructor
    · rintro ⟨e, he, htok, _⟩
      obtain ⟨t, ht, row, hrow, hkey, hemit⟩ :=
        (mem_drained_iff w btTables rowList action getToken hsel hok e).1 he
      obtain ⟨_, hpay, hgt⟩ := emitted_some w t getToken action row e hemit
      exact ⟨row.key, hkey, t, ht, row, hrow, rfl, hpay, by rw [hgt, htok]⟩
    · rintro ⟨key, hkey, t, ht, row, hrow, rfl, hpay, hgt⟩
      obtain ⟨e, hemit⟩ := emitted_of_payload w t getToken action row
        (hok t ht row hrow hkey) hpay
      obtain ⟨htab, _, hgt'⟩ := emitted_some w t getToken action row e hemit
      have htok : e.token = token := by
        rw [hgt] at hgt'
        simpa using hgt'.symm
      exact ⟨e, (mem_drained_iff w btTables rowList action getToken hsel hok e).2
        ⟨t, ht, row, hrow, hkey, hemit⟩, htok, by rw [htab]; exact ht⟩
  refine ⟨by rw [hres]; exact nodup_keys_merge _ _, hkeys, ?_⟩
  intro token hno
  rw [GoMap.get_eq_none_iff, hkeys]
  exact hno

theorem demo_rows_ok :
    ∀ t ∈ [1, 2], ∀ row ∈ demoWorld.content t, row.key ∈ ["a", "k", "c"] →
      ¬ rowFails demoWorld none demoAction row := by
  intro t ht row hrow hkey
  simp only [List.mem_cons, List.mem_singleton, List.not_mem_nil, or_false] at ht hkey
  rcases ht with rfl | rfl
  · simp [demoWorld] at hrow
    rcases hrow with rfl | rfl
    · simp [rowFails, demoWorld, demoAction]
    · simp at hkey
  · simp [demoWorld] at hrow
    rcases hrow with rfl | rfl
    · simp [rowFails, demoWorld, demoAction]
    · simp [rowFails, demoWorld, demoAction]

/-- A witness of C2, amended: keys `a`, `k` and `c` are requested in two chunks
from tables 1 and 2; both hold `a`, table 2 holds `c`, none holds `k`; the
result has the keys `a` and `c`. -/
theorem result_keys_witness :
    (["a", "k", "c"] ≠ [] ∧
      (bigTableReadRowsParallel demoWorld (some 1) [1, 2] (.RowList ["a", "k", "c"])
        demoAction none).outcome = .returned (some [("a", some 1), ("c", some 1)]) none ∧
      (∀ t ∈ [1, 2], ∀ row ∈ demoWorld.content t, row.key ∈ ["a", "k", "c"] →
        ¬ rowFails demoWorld none demoAction row)) ∧
    (GoMap.keys ([("a", some 1), ("c", some 1)] : GoMap String (Option Nat))).Nodup ∧
    (∀ token : String,
      token ∈ GoMap.keys ([("a", some 1), ("c", some 1)] : GoMap String (Option Nat)) ↔
      ∃ key ∈ ["a", "k", "c"], ∃ t ∈ [1, 2], ∃ row ∈ demoWorld.content t,
        row.key = key ∧ row.family ≠ [] ∧
        ((none : Option (String → Except Status String)).getD demoWorld.KeyToDcid) key =
          .ok token) ∧
    (∀ token : String,
      (¬ ∃ key ∈ ["a", "k", "c"], ∃ t ∈ [1, 2], ∃ row ∈ demoWorld.content t,
        row.key = key ∧ row.family ≠ [] ∧
        ((none : Option (String → Except Status String)).getD demoWorld.KeyToDcid) key =
          .ok token) →
      GoMap.get ([("a", some 1), ("c", some 1)] : GoMap String (Option Nat)) token = none) :=
  ⟨⟨by decide, by decide, demo_rows_ok⟩,
    result_keys demoWorld (some 1) [1, 2] ["a", "k", "c"] demoAction none
      [("a", some 1), ("c", some 1)] (by decide) (by decide) demo_rows_ok⟩

end Mixer
